import Mathlib

/-!
Verification development for the ZHTP repository core.

This file gives a shallow embedding, in Lean 4, of the parts of the ZHTP
source that the checked claims are about:

* `src/zhtp/zk_proofs.rs` — the unified circuit, proof generation and
  `verify_unified_proof` (namespace `ZK`);
* `src/network.rs` — the overlay simulator's packet bookkeeping, drop-rate
  computation and failure handling (namespace `Net`);
* `src/consensus.rs` — `NetworkMetrics` and its update rules (inside `Net`);
* `src/blockchain.rs` — `add_transaction` and the chain state it touches
  (namespace `Chain`);
* `src/storage/content.rs` — the content registry and its indices
  (namespace `Store`);
* `src/zhtp/mod.rs` — `commit_destination` (namespace `Zhtp`).

Machine integers are embedded as `Nat` with explicit reduction where the Rust
code can wrap; `f64` quantities are embedded as `Rat` (the claims under test
concern the algebraic form of the formulas, not rounding); BN254 field
elements are `ZMod p` for the concrete primes; hash maps are embedded as
association lists with explicit lookup/insert helpers.  Rust functions keep
their source names (camel-cased).
-/

namespace Spec

/-! ## Association-list helpers (embedding of `HashMap` as used by the source) -/

/-- Lookup in an association list, defaulting (embeds `map.get(...).unwrap_or(d)`). -/
def lookupD {α β : Type} [BEq α] (m : List (α × β)) (k : α) (d : β) : β :=
  match m.lookup k with
  | some v => v
  | none => d

/-- Insert-or-replace in an association list (embeds `map.insert(k, v)`). -/
def insertA {α β : Type} [BEq α] (m : List (α × β)) (k : α) (v : β) : List (α × β) :=
  match m with
  | [] => [(k, v)]
  | (k', v') :: rest => if k' == k then (k, v) :: rest else (k', v') :: insertA rest k v

/-- Update-or-insert in an association list (embeds `map.entry(k).or_insert(d)`
followed by a mutation `f` of the entry). -/
def updateA {α β : Type} [BEq α] (m : List (α × β)) (k : α) (d : β) (f : β → β) :
    List (α × β) :=
  match m with
  | [] => [(k, f d)]
  | (k', v') :: rest => if k' == k then (k, f v') :: rest else (k', v') :: updateA rest k d f

/-- Membership of a key (embeds `map.contains_key(k)`). -/
def containsKey {α β : Type} [BEq α] (m : List (α × β)) (k : α) : Bool :=
  (m.lookup k).isSome

/-! ## Bytes and words -/

/-- Truncate to 32 bits (`u32` wrapping semantics). -/
def u32 (x : Nat) : Nat := x % 4294967296

/-- Split a list into chunks of `n` elements (last chunk possibly shorter). -/
def chunksOf (n : Nat) (l : List Nat) : List (List Nat) :=
  if l = [] ∨ n = 0 then []
  else l.take n :: chunksOf n (l.drop n)
termination_by l.length
decreasing_by
  rename_i h
  simp only [not_or] at h
  simp only [List.length_drop]
  exact Nat.sub_lt (List.length_pos.mpr h.1) (Nat.pos_of_ne_zero h.2)

/-- Big-endian byte-list to natural number. -/
def beBytesToNat (l : List Nat) : Nat :=
  l.foldl (fun a b => a * 256 + b) 0

/-- Little-endian byte-list to natural number. -/
def leBytesToNat (l : List Nat) : Nat :=
  l.foldr (fun b a => a * 256 + b) 0

/-- `n` little-endian bytes of `x`. -/
def natToLeBytes (n : Nat) (x : Nat) : List Nat :=
  (List.range n).map (fun i => x / 256 ^ i % 256)

/-- `n` big-endian bytes of `x`. -/
def natToBeBytes (n : Nat) (x : Nat) : List Nat :=
  (natToLeBytes n x).reverse

namespace Sha256

/-!
Executable SHA-256 over byte lists (each byte a `Nat < 256`), embedding the
`sha2::Sha256` dependency used throughout the source.  Words are `Nat`s
reduced mod 2^32.
-/

/-- Right-rotate a 32-bit word by `n`. -/
def rotr (n x : Nat) : Nat :=
  u32 ((x >>> n) + ((x % 2 ^ n) <<< (32 - n)))

def smallSig0 (x : Nat) : Nat := rotr 7 x ^^^ rotr 18 x ^^^ (x >>> 3)
def smallSig1 (x : Nat) : Nat := rotr 17 x ^^^ rotr 19 x ^^^ (x >>> 10)
def bigSig0 (x : Nat) : Nat := rotr 2 x ^^^ rotr 13 x ^^^ rotr 22 x
def bigSig1 (x : Nat) : Nat := rotr 6 x ^^^ rotr 11 x ^^^ rotr 25 x

/-- The 64 SHA-256 round constants. -/
def kConst : List Nat :=
  [1116352408, 1899447441, 3049323471, 3921009573, 961987163, 1508970993,
   2453635748, 2870763221, 3624381080, 310598401, 607225278, 1426881987,
   1925078388, 2162078206, 2614888103, 3248222580, 3835390401, 4022224774,
   264347078, 604807628, 770255983, 1249150122, 1555081692, 1996064986,
   2554220882, 2821834349, 2952996808, 3210313671, 3336571891, 3584528711,
   113926993, 338241895, 666307205, 773529912, 1294757372, 1396182291,
   1695183700, 1986661051, 2177026350, 2456956037, 2730485921, 2820302411,
   3259730800, 3345764771, 3516065817, 3600352804, 4094571909, 275423344,
   430227734, 506948616, 659060556, 883997877, 958139571, 1322822218,
   1537002063, 1747873779, 1955562222, 2024104815, 2227730452, 2361852424,
   2428436474, 2756734187, 3204031479, 3329325298]

/-- The initial SHA-256 state. -/
def hInit : List Nat :=
  [1779033703, 3144134277, 1013904242, 2773480762,
   1359893119, 2600822924, 528734635, 1541459225]

/-- Pad a message to a multiple of 64 bytes (the standard SHA-256 padding). -/
def pad (msg : List Nat) : List Nat :=
  let z := (120 - (msg.length + 1) % 64) % 64
  msg ++ [128] ++ List.replicate z 0 ++ natToBeBytes 8 (msg.length * 8)

/-- Four-byte big-endian words of a 64-byte block. -/
def bytesToWords (block : List Nat) : List Nat :=
  (chunksOf 4 block).map beBytesToNat

/-- Extend 16 message words to the 64-word schedule. -/
def schedule (w16 : List Nat) : List Nat :=
  (List.range 48).foldl
    (fun w _ =>
      let n := w.length
      w ++ [u32 (smallSig1 (w.getD (n - 2) 0) + w.getD (n - 7) 0 +
                 smallSig0 (w.getD (n - 15) 0) + w.getD (n - 16) 0)])
    w16

/-- One compression round. -/
def roundStep (st : List Nat) (kw : Nat × Nat) : List Nat :=
  match st with
  | [a, b, c, d, e, f, g, h] =>
    let ch := (e &&& f) ^^^ ((e ^^^ 4294967295) &&& g)
    let temp1 := u32 (h + bigSig1 e + ch + kw.1 + kw.2)
    let maj := (a &&& b) ^^^ (a &&& c) ^^^ (b &&& c)
    let temp2 := u32 (bigSig0 a + maj)
    [u32 (temp1 + temp2), a, b, c, u32 (d + temp1), e, f, g]
  | other => other

/-- Compress one 64-byte block into the running state. -/
def compressBlock (st : List Nat) (block : List Nat) : List Nat :=
  let w := schedule (bytesToWords block)
  let st' := (kConst.zip w).foldl roundStep st
  (st.zip st').map (fun p => u32 (p.1 + p.2))

/-- SHA-256 of a byte list, as its 32 digest bytes. -/
def hash (msg : List Nat) : List Nat :=
  ((chunksOf 64 (pad msg)).foldl compressBlock hInit).flatMap (natToBeBytes 4)

end Sha256

namespace BN

/-!
The BN254 curve data used by `zk_proofs.rs` through the `ark_bn254` crate:
the scalar field `Fr`, the base field `Fq`, and the group `G1` of points of
`y^2 = x^3 + 3` over `Fq` (plus the point at infinity).  `G1Projective`
values are embedded as affine points with an explicit infinity case; the
arkworks projective representation is a coordinate choice with the same
group semantics.
-/

/-- The BN254 scalar field order (the order of `ark_bn254::Fr`). -/
def rScalar : Nat :=
  21888242871839275222246405745257275088548364400416034343698204186575808495617

/-- The BN254 base field order (the order of `ark_bn254::Fq`). -/
def qBase : Nat :=
  21888242871839275222246405745257275088696311157297823662689037894645226208583

instance : Fact (1 < rScalar) := ⟨by norm_num [rScalar]⟩
instance : Fact (1 < qBase) := ⟨by norm_num [qBase]⟩

/-- The scalar field `ark_bn254::Fr`. -/
abbrev Fr := ZMod rScalar

/-- The base field `ark_bn254::Fq`. -/
abbrev Fq := ZMod qBase

/-- Binary modular exponentiation (used for field inversion). -/
def powMod (b e m : Nat) : Nat :=
  if h : e = 0 then 1 % m
  else
    let r := powMod b (e / 2) m
    let r2 := r * r % m
    if e % 2 = 1 then r2 * b % m else r2
termination_by e
decreasing_by exact Nat.div_lt_self (Nat.pos_of_ne_zero h) (by decide)

/-- Inversion in `Fq` by Fermat's little theorem (`x⁻¹ = x^(q-2)`). -/
def fqInv (x : Fq) : Fq := (powMod x.val (qBase - 2) qBase : Nat)

/-- A `G1` point: affine coordinates or the point at infinity. -/
def G1 := Option (Fq × Fq)

instance : DecidableEq G1 := by unfold G1; infer_instance
instance : Inhabited G1 := ⟨none⟩

/-- The group identity (`G1Projective::zero()`). -/
def g1Zero : G1 := none

/-- The BN254 `G1` generator `(1, 2)` (`G1Affine::generator()`). -/
def g1Gen : G1 := some (1, 2)

/-- The affine group law on `G1` (embeds curve point addition). -/
def g1Add (p q : G1) : G1 :=
  match p, q with
  | none, q => q
  | p, none => p
  | some (x1, y1), some (x2, y2) =>
    if x1 = x2 then
      if y1 = -y2 then none
      else
        let l := (3 * x1 * x1) * fqInv (2 * y1)
        let x3 := l * l - 2 * x1
        some (x3, l * (x1 - x3) - y1)
    else
      let l := (y2 - y1) * fqInv (x2 - x1)
      let x3 := l * l - x1 - x2
      some (x3, l * (x1 - x3) - y1)

/-- Scalar multiplication by a natural number (embeds `mul_bigint` and the
repeated `*=` scalar products). -/
def g1Smul (n : Nat) (p : G1) : G1 :=
  if h : n = 0 then none
  else
    let half := g1Smul (n / 2) p
    let dbl := g1Add half half
    if n % 2 = 1 then g1Add dbl p else dbl
termination_by n
decreasing_by exact Nat.div_lt_self (Nat.pos_of_ne_zero h) (by decide)

/-- Modelled behavior of arkworks `serialize_uncompressed` for `G1Projective`:
the affine `x` and `y` coordinates as 32 little-endian bytes each; the point
at infinity serializes as zeros with the infinity flag in the last byte. -/
def serializePoint (p : G1) : List Nat :=
  match p with
  | none => List.replicate 63 0 ++ [64]
  | some (x, y) => natToLeBytes 32 x.val ++ natToLeBytes 32 y.val

/-- Modelled behavior of arkworks `Fr::from_random_bytes`: interpret the
leading 32 bytes as a little-endian integer and accept it when it is a
canonical field element. -/
def frFromRandomBytes (bytes : List Nat) : Option Fr :=
  let n := leBytesToNat (bytes.take 32)
  if n < rScalar then some (n : Fr) else none

end BN

namespace ZK

open BN

/-!
Embedding of `src/zhtp/zk_proofs.rs`.  `f64` latency samples are carried by
their IEEE-754 bit pattern (a `Nat`), which is exactly what the source feeds
into the circuit (`latency.to_bits() as u64`).  The scratch fields of the
Rust `UnifiedCircuit` (`public_inputs`, the three polynomial vectors) are
write-only outputs of proof generation and are produced locally by
`buildProof` instead of being threaded through the structure.
-/

/-- `RoutingProof`: commitments, PLONK proof elements, public inputs. -/
structure RoutingProof where
  pathCommitments : List G1
  proofElements : List Fr
  publicInputs : List Fr
deriving DecidableEq

instance : Inhabited RoutingProof := ⟨⟨[], [], []⟩⟩

/-- `UnifiedCircuit`'s data fields (see the note above on the scratch fields). -/
structure UnifiedCircuit where
  sourceNode : List Nat
  destinationNode : List Nat
  routePath : List (List Nat)
  routingTable : List (List Nat × List (List Nat))
  storedDataRoot : List Nat
  storageMerkleProof : List (List Nat)
  spaceCommitment : G1
  bandwidthUsed : Nat
  uptimeRecords : List (Nat × Bool)
  latencyMeasurements : List (Nat × Nat)
  evaluationDomainSize : Nat

/-- Rust `usize::next_power_of_two` (with `0 → 1`, as in Rust). -/
def nextPow2 (n : Nat) : Nat :=
  if n ≤ 1 then 1 else 2 ^ (Nat.log2 (n - 1) + 1)

/-- `UnifiedCircuit::new`: stores the inputs and fixes the evaluation-domain
size as the next power of two above the total constraint count. -/
def UnifiedCircuit.new (source destination : List Nat) (path : List (List Nat))
    (routingTable : List (List Nat × List (List Nat))) (root : List Nat)
    (storageProof : List (List Nat)) (spaceCommitment : G1) (bandwidth : Nat)
    (uptime : List (Nat × Bool)) (latency : List (Nat × Nat)) : UnifiedCircuit :=
  { sourceNode := source
    destinationNode := destination
    routePath := path
    routingTable := routingTable
    storedDataRoot := root
    storageMerkleProof := storageProof
    spaceCommitment := spaceCommitment
    bandwidthUsed := bandwidth
    uptimeRecords := uptime
    latencyMeasurements := latency
    evaluationDomainSize :=
      nextPow2 (path.length + storageProof.length + uptime.length + latency.length) }

/-- The `b"ZHTP-v1"` domain separator. -/
def domainSep : List Nat := [90, 72, 84, 80, 45, 118, 49]

/-- `hash_to_field`: SHA-256 with domain separation, then the source's
chunk-fold into `Fr`, mapping a zero result to one. -/
def hashToField (bytes : List Nat) : Fr :=
  let digest := Sha256.hash (domainSep ++ bytes)
  let num := (chunksOf 8 digest).foldl
    (fun num chunk =>
      let val := chunk.foldl (fun v b => v * 256 + b) 0
      (num + (val : Fr)) * (256 : Fr))
    (0 : Fr)
  if num = 0 then 1 else num

/-- `routing_table.get(current).map(|hops| hops.contains(next)).unwrap_or(false)`. -/
def nextHopAllowed (table : List (List Nat × List (List Nat)))
    (current next : List Nat) : Bool :=
  match table.lookup current with
  | some hops => hops.contains next
  | none => false

/-- The validity flags of `add_routing_constraints`: `1` per valid hop until
the first invalid hop, which contributes `0` and forces all remaining flags
to `0` (the source's early `break` after back-filling zeros). -/
def validityFlags (table : List (List Nat × List (List Nat))) :
    List (List Nat) → List Fr
  | a :: b :: rest =>
    if nextHopAllowed table a b then (1 : Fr) :: validityFlags table (b :: rest)
    else (0 : Fr) :: List.replicate rest.length (0 : Fr)
  | _ => []

/-- `add_routing_constraints` as the list of wire values it appends: node
hashes, then the validity flags (nothing when the path is empty). -/
def addRoutingConstraints (c : UnifiedCircuit) : List Fr :=
  if c.routePath = [] then []
  else c.routePath.map hashToField ++ validityFlags c.routingTable c.routePath

/-- `compute_merkle_node`: SHA-256 of the two 32-byte children. -/
def computeMerkleNode (l r : List Nat) : List Nat := Sha256.hash (l ++ r)

/-- `compute_space_commitment`: hash the serialized space-commitment point
into `Fr`, falling back to zero when the bytes are not a field element. -/
def computeSpaceCommitment (c : UnifiedCircuit) : Fr :=
  match frFromRandomBytes (serializePoint c.spaceCommitment) with
  | some v => v
  | none => 0

/-- The interleaved (parent, child) hash pairs walked along the Merkle proof. -/
def storagePairs : List Nat → List (List Nat) → List Fr
  | _, [] => []
  | current, node :: rest =>
    hashToField current :: hashToField node ::
      storagePairs (computeMerkleNode current node) rest

/-- `add_storage_constraints` as the list of wire values it appends. -/
def addStorageConstraints (c : UnifiedCircuit) : List Fr :=
  if c.storageMerkleProof = [] then [computeSpaceCommitment c]
  else storagePairs c.storedDataRoot c.storageMerkleProof ++ [computeSpaceCommitment c]

/-- Stable insertion by timestamp (equal keys keep insertion order). -/
def insertByTs {β : Type} (x : Nat × β) : List (Nat × β) → List (Nat × β)
  | [] => [x]
  | y :: rest => if y.1 ≤ x.1 then y :: insertByTs x rest else x :: y :: rest

/-- Rust's stable `sort_by_key(|(ts, _)| *ts)`. -/
def sortByTs {β : Type} (l : List (Nat × β)) : List (Nat × β) :=
  l.foldl (fun acc x => insertByTs x acc) []

/-- `add_metrics_constraints` as the list of wire values it appends:
timestamp-sorted uptime records then timestamp-sorted latency records, each
contributing (timestamp, value) as field elements. -/
def addMetricsConstraints (c : UnifiedCircuit) : List Fr :=
  let up :=
    if c.uptimeRecords = [] then []
    else (sortByTs c.uptimeRecords).flatMap
      (fun r => [(r.1 : Fr), ((if r.2 then 1 else 0 : Nat) : Fr)])
  let lat :=
    if c.latencyMeasurements = [] then []
    else (sortByTs c.latencyMeasurements).flatMap
      (fun r => [(r.1 : Fr), (r.2 : Fr)])
  up ++ lat

/-- `commitment_counts`: (base, routing + storage, metrics). -/
def commitmentCounts (c : UnifiedCircuit) : Nat × Nat × Nat :=
  let baseCount := 5
  let routingCount :=
    if c.routePath = [] then 0
    else c.routePath.length +
      (if c.routePath.length > 1 then c.routePath.length - 1 else 0)
  let storageCount :=
    if c.storageMerkleProof = [] then 1 else c.storageMerkleProof.length * 2 + 1
  let metricsCount := c.uptimeRecords.length * 2 + c.latencyMeasurements.length * 2
  (baseCount, routingCount + storageCount, metricsCount)

/-- The five base wire values of `generate_proof`, in their fixed order. -/
def baseValues (c : UnifiedCircuit) : List Fr :=
  [hashToField c.sourceNode, hashToField c.destinationNode,
   hashToField c.storedDataRoot, (c.bandwidthUsed : Fr),
   (c.uptimeRecords.length : Fr)]

/-- All wire values of `generate_proof`, in emission order. -/
def wireValues (c : UnifiedCircuit) : List Fr :=
  baseValues c ++ addRoutingConstraints c ++ addStorageConstraints c ++
    addMetricsConstraints c

/-- `values_to_polynomials`: one degree-0 polynomial per value, padded with
zeros to the evaluation-domain size. -/
def valuesToPolynomials (c : UnifiedCircuit) (values : List Fr) : List (List Fr) :=
  values.map (fun v => v :: List.replicate (c.evaluationDomainSize - 1) (0 : Fr))

/-- `evaluate_polynomial`: Horner-free sum of `coeff * point^i`. -/
def evaluatePolynomial (coeffs : List Fr) (point : Fr) : Fr :=
  (coeffs.foldl (fun acc c => (acc.1 + c * acc.2, acc.2 * point)) ((0 : Fr), (1 : Fr))).1

/-- `commit_polynomial`: KZG-style commitment over powers `gen * 2^i` of the
generator (the source's fixed `secret = 2`). -/
def commitPolynomial (coeffs : List Fr) : G1 :=
  let powers := (List.range coeffs.length).map (fun i => g1Smul (2 ^ i) g1Gen)
  (powers.zip coeffs).foldl (fun acc pc => g1Add acc (g1Smul pc.2.val pc.1)) g1Zero

/-- The path-validity loop at the top of `generate_proof`: every consecutive
pair of path nodes must be allowed by the routing table. -/
def pathPairsValid (table : List (List Nat × List (List Nat))) :
    List (List Nat) → Bool
  | a :: b :: rest => nextHopAllowed table a b && pathPairsValid table (b :: rest)
  | _ => true

/-- The proof object `generate_proof` constructs once the path is valid:
commitments and challenge-point evaluations of the wire polynomials, with the
wire values as public inputs (the source's selector and permutation
polynomials are computed but never enter the proof object). -/
def buildProof (c : UnifiedCircuit) : RoutingProof :=
  let values := wireValues c
  let polys := valuesToPolynomials c values
  { pathCommitments := polys.map commitPolynomial
    proofElements := polys.map (fun p => evaluatePolynomial p (2 : Fr))
    publicInputs := values }

/-- `generate_proof`: `None` when some consecutive hop pair is absent from
the routing table, otherwise the constructed proof. -/
def generateProof (c : UnifiedCircuit) : Option RoutingProof :=
  if pathPairsValid c.routingTable c.routePath then some (buildProof c) else none

/-- `validate_proof_structure`: equal component counts and at least five
public inputs. -/
def validateProofStructure (p : RoutingProof) : Bool :=
  if p.pathCommitments.length != p.proofElements.length ||
     p.pathCommitments.length != p.publicInputs.length then false
  else if p.publicInputs.length < 5 then false
  else true

/-- The internal circuit `verify_unified_proof` constructs: empty path, a
routing table containing only `source → [destination]`, empty Merkle proof,
the generator as space commitment, and no metrics. -/
def verifierCircuit (source destination root : List Nat) : UnifiedCircuit :=
  UnifiedCircuit.new source destination [] [(source, [destination])] root []
    g1Gen 0 [] []

/-- One expansion pass of the verifier's reachability loop: insert every next
hop of every currently reachable node. -/
def expandOnce (routeHashes : List (Fr × List Fr)) (reach : List Fr) : List Fr :=
  reach.foldl
    (fun acc node =>
      match routeHashes.lookup node with
      | some hops => hops.foldl (fun a h => if a.contains h then a else a ++ [h]) acc
      | none => acc)
    reach

/-- The verifier's reachability fixpoint: found when some reachable node
lists the destination hash among its hops; stop at a fixed point.  The fuel
passed by `verifyRoutingBlock` exceeds the total number of hashes, so the
fixed point is always reached within it. -/
def reachLoop (routeHashes : List (Fr × List Fr)) (destHash : Fr) :
    List Fr → Nat → Bool
  | _, 0 => false
  | reach, fuel + 1 =>
    let found := reach.any
      (fun node =>
        match routeHashes.lookup node with
        | some hops => hops.contains destHash
        | none => false)
    if found then true
    else
      let next := expandOnce routeHashes reach
      if next.length = reach.length then false
      else reachLoop routeHashes destHash next fuel

/-- The verifier's extraction of (path node, validity flag) pairs from the
proof elements, starting at index 5 and bounded by `5 + constraint_count*2`. -/
def extractPathAux (els : List Fr) (bound : Nat) : Nat → Nat → List Fr × List Fr
  | _, 0 => ([], [])
  | i, fuel + 1 =>
    if i + 1 < els.length ∧ i < bound then
      let rest := extractPathAux els bound (i + 2) fuel
      (els.getD i 0 :: rest.1, els.getD (i + 1) 0 :: rest.2)
    else ([], [])

/-- Index of the first occurrence (the verifier's `position(...).unwrap()`). -/
def posOf (l : List Fr) (x : Fr) : Nat :=
  match l with
  | [] => 0
  | y :: rest => if y = x then 0 else posOf rest x + 1

/-- The verifier's window walk: every consecutive pair must be a hashed
adjacency, and the validity flags at the first occurrence of each window
head accumulate multiplicatively. -/
def hopsLoop (routeHashes : List (Fr × List Fr)) (allNodes pathValid : List Fr)
    (acc : Fr) : List Fr → Bool × Fr
  | cur :: next :: rest =>
    match routeHashes.lookup cur with
    | some hops =>
      if hops.contains next then
        hopsLoop routeHashes allNodes pathValid
          (acc * pathValid.getD (posOf allNodes cur) 0) (next :: rest)
      else (false, acc)
    | none => (false, acc)
  | _ => (true, acc)

/-- The body of `verify_unified_proof`'s routing-validation block (the block
guarded by `!source.is_empty() && !destination.is_empty() && constraint_count > 1`). -/
def verifyRoutingBlock (c : UnifiedCircuit) (p : RoutingProof)
    (source destination : List Nat) (constraintCount : Nat) : Bool :=
  if ¬ containsKey c.routingTable source then false
  else
    let routeHashes := c.routingTable.map (fun e => (hashToField e.1, e.2.map hashToField))
    let sourceHash := hashToField source
    let destHash := hashToField destination
    let fuel := routeHashes.foldl (fun a e => a + 1 + e.2.length) 2
    if ¬ reachLoop routeHashes destHash [sourceHash] fuel then false
    else
      let ex := extractPathAux p.proofElements (5 + constraintCount * 2) 5
        (p.proofElements.length + 1)
      if ex.1 = [] ∨ ex.2 = [] then false
      else if ex.1.head? ≠ some sourceHash ∨ ex.1.getLast? ≠ some destHash then false
      else
        let hc := hopsLoop routeHashes ex.1 ex.2 1 ex.1
        if ¬ hc.1 ∨ hc.2 ≠ 1 then false
        else
          let combinedCommit := p.pathCommitments.foldl g1Add g1Zero
          let combinedEval := p.proofElements.foldl (· + ·) (0 : Fr)
          if g1Smul combinedEval.val g1Gen ≠ combinedCommit then false
          else if p.proofElements ≠ p.publicInputs then false
          else true

/-- `verify_unified_proof`: structural checks, base-value hash equalities
(the root check skipped in view-change mode), then the routing block under
its guard. -/
def verifyUnifiedProof (p : RoutingProof) (source destination root : List Nat) : Bool :=
  if ¬ validateProofStructure p then false
  else
    let circuit := verifierCircuit source destination root
    let constraintCount := (commitmentCounts circuit).2.1
    let isViewChange := root == List.replicate 32 0
    if p.publicInputs.getD 0 0 ≠ hashToField source then false
    else if p.publicInputs.getD 1 0 ≠ hashToField destination then false
    else if ¬ isViewChange ∧ p.publicInputs.getD 2 0 ≠ hashToField root then false
    else if ¬ source.isEmpty ∧ ¬ destination.isEmpty ∧ constraintCount > 1 then
      verifyRoutingBlock circuit p source destination constraintCount
    else true

end ZK

namespace Net

/-!
Embedding of `src/consensus.rs`'s `NetworkMetrics` and the parts of
`src/network.rs` the claims are about.  The two `rand::thread_rng()` draws of
a delivery attempt (the drop sample and the latency sample) are passed in as
explicit oracle values.
-/

/-- `NetworkMetrics` (`src/consensus.rs`). -/
structure NetworkMetrics where
  packetsRouted : Nat
  deliverySuccess : Nat
  deliveryFailures : Nat
  averageLatency : Rat
  reputationScore : Rat
  uptimeThreshold : Rat
deriving DecidableEq

/-- `NetworkMetrics::new`. -/
def NetworkMetrics.new (uptimeThreshold : Rat) : NetworkMetrics :=
  { packetsRouted := 0
    deliverySuccess := 0
    deliveryFailures := 0
    averageLatency := 0
    reputationScore := 1
    uptimeThreshold := uptimeThreshold }

/-- Rust `f64::clamp(0.0, 1.0)`. -/
def clamp01 (x : Rat) : Rat := if x < 0 then 0 else if x > 1 then 1 else x

/-- `update_reputation`: move by a tenth towards 1 on success, shrink by a
tenth on failure, then clamp to [0, 1]. -/
def NetworkMetrics.updateReputation (m : NetworkMetrics) (success : Bool) :
    NetworkMetrics :=
  let s :=
    if success then m.reputationScore + (1 / 10 : Rat) * (1 - m.reputationScore)
    else m.reputationScore - (1 / 10 : Rat) * m.reputationScore
  { m with reputationScore := clamp01 s }

/-- `update_routing_metrics`: bump `packets_routed` and `delivery_success`,
fold the latency sample into the EMA, then a success reputation update.
The `packet_size` argument is accepted and unused, as in the source. -/
def NetworkMetrics.updateRoutingMetrics (m : NetworkMetrics) (latency : Rat)
    (_packetSize : Nat) : NetworkMetrics :=
  let m := { m with
    packetsRouted := m.packetsRouted + 1
    deliverySuccess := m.deliverySuccess + 1
    averageLatency := (1 / 10 : Rat) * latency + (9 / 10 : Rat) * m.averageLatency }
  m.updateReputation true

/-- `update_failed_routing`: bump `delivery_failures`, then a failure
reputation update. -/
def NetworkMetrics.updateFailedRouting (m : NetworkMetrics) : NetworkMetrics :=
  ({ m with deliveryFailures := m.deliveryFailures + 1 }).updateReputation false

/-- `Packet` (`src/network.rs`). -/
structure Packet where
  source : String
  destination : String
  payload : String
  timestamp : Int
  visitedNodes : List String
  size : Nat
  maxHops : Nat
  hopCount : Nat
deriving DecidableEq

/-- `Packet::new`: the source is pre-visited, size is payload + 100,
`max_hops = 10`, `hop_count = 0`. -/
def Packet.new (source destination payload : String) (timestamp : Int) : Packet :=
  { source := source
    destination := destination
    payload := payload
    timestamp := timestamp
    visitedNodes := [source]
    size := payload.length + 100
    maxHops := 10
    hopCount := 0 }

/-- `increment_hop`: bump the count and report whether it is still within
`max_hops`. -/
def Packet.incrementHop (p : Packet) : Packet × Bool :=
  let p' := { p with hopCount := p.hopCount + 1 }
  (p', p'.hopCount ≤ p'.maxHops)

/-- `NetworkCondition`. -/
structure NetworkCondition where
  packetLossRate : Rat
  latencyMultiplier : Rat
  bandwidthCap : Option Nat
deriving DecidableEq

/-- `NetworkCondition::default()`. -/
def NetworkCondition.default : NetworkCondition :=
  { packetLossRate := 0, latencyMultiplier := 1, bandwidthCap := none }

/-- `NetworkCondition::calculate_drop_rate` — present in the source but not
called by `attempt_delivery` (nor anywhere else). -/
def NetworkCondition.calculateDropRate (c : NetworkCondition) (reputation : Rat) : Rat :=
  let latencyFactor := max c.latencyMultiplier 1
  let baseRate := c.packetLossRate * latencyFactor
  let repPenalty := (1 - reputation) ^ 2
  min (baseRate * (1 + repPenalty * 5)) (95 / 100 : Rat)

/-- A network `Node`. -/
structure Node where
  id : String
  connections : List String
  metrics : NetworkMetrics
  receivedMessages : List String
deriving DecidableEq

/-- `Node::new`. -/
def Node.new (id : String) (stake : Rat) : Node :=
  { id := id, connections := [], metrics := NetworkMetrics.new stake,
    receivedMessages := [] }

/-- `receive_packet`: store the payload when the packet is addressed here. -/
def Node.receivePacket (n : Node) (p : Packet) : Node :=
  if p.destination == n.id then { n with receivedMessages := n.receivedMessages ++ [p.payload] }
  else n

/-- The `Network` state. -/
structure Network where
  nodes : List (String × Node)
  messageQueue : List Packet
  deliveryTracking : List (String × Bool)
  networkConditions : List (String × NetworkCondition)
deriving DecidableEq

/-- `Network::new`. -/
def Network.new : Network := ⟨[], [], [], []⟩

/-- Apply `f` to the entry at `k` when present (embeds `map.get_mut(k)`). -/
def adjustA {α β : Type} [BEq α] (m : List (α × β)) (k : α) (f : β → β) :
    List (α × β) :=
  match m with
  | [] => []
  | (k', v) :: rest => if k' == k then (k', f v) :: rest else (k', v) :: adjustA rest k f

/-- The tracking key `format!("{}:{}:{}", source, destination, timestamp)`. -/
def trackingId (p : Packet) : String :=
  p.source ++ ":" ++ p.destination ++ ":" ++ toString p.timestamp

/-- `handle_failed_delivery`: a failed-routing and a failure reputation update
on the named node, then the tracking insertion the source performs (it
inserts `true`). -/
def handleFailedDelivery (net : Network) (nodeId : String) (p : Packet) : Network :=
  let nodes' := adjustA net.nodes nodeId
    (fun n => { n with metrics := n.metrics.updateFailedRouting.updateReputation false })
  { net with nodes := nodes'
             deliveryTracking := insertA net.deliveryTracking (trackingId p) true }

/-- `calculate_node_latency` with the uniform(10, 200) draw as an oracle. -/
def calculateNodeLatency (net : Network) (nodeId : String) (draw : Rat) : Rat :=
  match net.networkConditions.lookup nodeId with
  | some c => draw * c.latencyMultiplier
  | none => draw

/-- The destination reputation `attempt_delivery` reads
(`self.nodes.get(&dest_id).map(|n| ...reputation_score).unwrap_or(1.0)`). -/
def destReputation (net : Network) (destId : String) : Rat :=
  ((net.nodes.lookup destId).map (fun n => n.metrics.reputationScore)).getD 1

/-- The `base_drop_rate`/`rep_penalty`/`final_drop_rate` lines of
`attempt_delivery` (`src/network.rs` lines 176–178):
`base + (1 − r)² × base`, capped at 0.95. -/
def attemptDropRate (c : NetworkCondition) (r : Rat) : Rat :=
  min (c.packetLossRate * c.latencyMultiplier +
       (1 - r) ^ 2 * (c.packetLossRate * c.latencyMultiplier)) (95 / 100 : Rat)

/-- `attempt_delivery` (`src/network.rs` lines 163–212), with the drop sample
`u` and the latency sample `latDraw` as oracles.  Returns the updated network
and the source's boolean. -/
def attemptDelivery (net : Network) (p : Packet) (u latDraw : Rat) :
    Network × Bool :=
  let destId := p.destination
  let sourceId := p.source
  let tid := trackingId p
  let condition := lookupD net.networkConditions destId NetworkCondition.default
  let reputation := destReputation net destId
  let baseDropRate := condition.packetLossRate * condition.latencyMultiplier
  let finalDropRate := attemptDropRate condition reputation
  if ¬ containsKey net.nodes destId ∨ u < finalDropRate then
    let nodes' := adjustA net.nodes destId
      (fun dn =>
        let dn :=
          if baseDropRate < 3 / 10 ∧ reputation > 1 / 2 then
            { dn with metrics := dn.metrics.updateReputation false }
          else dn
        { dn with metrics := dn.metrics.updateFailedRouting })
    ({ net with nodes := nodes' }, false)
  else
    let latency := calculateNodeLatency net destId latDraw
    match net.nodes.lookup destId with
    | some _ =>
      let nodes' := adjustA net.nodes destId
        (fun dn => { dn.receivePacket p with
          metrics := (dn.receivePacket p).metrics.updateRoutingMetrics latency p.size })
      let nodes'' := adjustA nodes' sourceId
        (fun sn => { sn with metrics := sn.metrics.updateReputation true })
      ({ net with nodes := nodes''
                  deliveryTracking := insertA net.deliveryTracking tid true }, true)
    | none => (net, false)

/-- The hop-limit branch at the head of `process_messages` (lines 350–354):
pop the front packet, increment its hop count, and when the limit is
exceeded discard it and run `handle_failed_delivery` against the packet's
source.  Returns `none` when the branch does not apply. -/
def processFrontExpired (net : Network) : Option Network :=
  match net.messageQueue with
  | [] => none
  | p :: rest =>
    let ih := p.incrementHop
    if ih.2 then none
    else some (handleFailedDelivery { net with messageQueue := rest } p.source ih.1)

end Net

namespace Chain

/-!
Embedding of `src/blockchain.rs`'s `add_transaction` and the chain state it
touches.  The `chain` field of `ChainState` is neither read nor written by
`add_transaction` and is omitted; `f64` amounts are `Rat`.
-/

/-- `Transaction` (the `from`/`to` fields are Lean keywords and appear as
`fromAddr`/`toAddr`). -/
structure Transaction where
  fromAddr : String
  toAddr : String
  amount : Rat
  timestamp : Int
  signature : String
  nonce : Nat
  data : List Nat
deriving DecidableEq

/-- The chain state touched by `add_transaction`. -/
structure ChainState where
  pendingTransactions : List Transaction
  balances : List (String × Rat)
  transactionNonces : List (String × Nat)
deriving DecidableEq

/-- `ChainState::new`, restricted to the fields above (fresh pools and maps). -/
def ChainState.new : ChainState := ⟨[], [], []⟩

/-- `add_transaction`: reject empty endpoints; assign and advance the
per-sender nonce; reject non-`"network"` senders whose balance is below the
amount; otherwise append to the pending pool. -/
def addTransaction (st : ChainState) (tx : Transaction) : ChainState × Bool :=
  if tx.fromAddr = "" ∨ tx.toAddr = "" then (st, false)
  else
    let n := lookupD st.transactionNonces tx.fromAddr 0
    let tx' := { tx with nonce := n }
    let st' := { st with
      transactionNonces := insertA st.transactionNonces tx.fromAddr (n + 1) }
    if tx.fromAddr ≠ "network" ∧ lookupD st'.balances tx.fromAddr 0 < tx.amount then
      (st', false)
    else
      ({ st' with pendingTransactions := st'.pendingTransactions ++ [tx'] }, true)

/-- Run a sequence of submissions through `add_transaction`, keeping states. -/
def runTransactions (st : ChainState) (txs : List Transaction) : ChainState :=
  txs.foldl (fun s tx => (addTransaction s tx).1) st

end Chain

namespace Store

/-!
Embedding of `src/storage/content.rs`: the content registry, the three
secondary indices and the access counts.  The service registry is neither
read nor written by the operations under claim and is omitted.
-/

/-- A `ContentId` is the 32-byte SHA-256 digest of the content bytes. -/
abbrev ContentId := List Nat

/-- `ContentId::new`. -/
def ContentId.new (data : List Nat) : ContentId := Sha256.hash data

/-- `ContentMetadata`. -/
structure ContentMetadata where
  id : ContentId
  size : Nat
  contentType : String
  locations : List (List Nat)
  lastVerified : Nat
  tags : List String
deriving DecidableEq

/-- The `ContentAddressing` state. -/
structure ContentAddressing where
  contentMap : List (ContentId × ContentMetadata)
  typeIndex : List (String × List ContentId)
  sizeIndex : List (Nat × List ContentId)
  tagIndex : List (String × List ContentId)
  accessCounts : List (ContentId × Nat)
deriving DecidableEq

/-- `ContentAddressing::new`. -/
def ContentAddressing.new : ContentAddressing := ⟨[], [], [], [], []⟩

/-- `register_content`, with the clock passed in as `now`.  An existing id
only has its metadata's locations (deduplicated) and verification time
updated; a fresh id is inserted into the registry, all three indices keyed
respectively by content type, byte size and each tag, and the access counts. -/
def registerContent (st : ContentAddressing) (data : List Nat)
    (contentType : String) (nodeId : List Nat) (tags : List String)
    (now : Nat) : ContentAddressing × ContentId :=
  let contentId := ContentId.new data
  let dataSize := data.length
  match st.contentMap.lookup contentId with
  | some metadata =>
    let metadata' := { metadata with
      locations :=
        if metadata.locations.contains nodeId then metadata.locations
        else metadata.locations ++ [nodeId]
      lastVerified := now }
    ({ st with contentMap := insertA st.contentMap contentId metadata' }, contentId)
  | none =>
    let metadata : ContentMetadata :=
      { id := contentId, size := dataSize, contentType := contentType,
        locations := [nodeId], lastVerified := now, tags := tags }
    ({ st with
        contentMap := st.contentMap ++ [(contentId, metadata)]
        typeIndex := updateA st.typeIndex contentType [] (fun ids => ids ++ [contentId])
        tagIndex := tags.foldl
          (fun idx tag => updateA idx tag [] (fun ids => ids ++ [contentId]))
          st.tagIndex
        sizeIndex := updateA st.sizeIndex dataSize [] (fun ids => ids ++ [contentId])
        accessCounts := insertA st.accessCounts contentId 0 }, contentId)

/-- `search_content_by_size(min_kb, max_kb)`: filter the size-index keys by
the requested range and resolve each bucketed id through the registry. -/
def searchContentBySize (st : ContentAddressing) (minKb maxKb : Nat) :
    List (ContentId × ContentMetadata) :=
  (st.sizeIndex.filter (fun e => minKb ≤ e.1 ∧ e.1 ≤ maxKb)).flatMap
    (fun e => e.2.filterMap (fun id => (st.contentMap.lookup id).map (fun m => (id, m))))

/-- One registration request: (data, content type, node id, tags, clock). -/
structure RegInput where
  data : List Nat
  contentType : String
  nodeId : List Nat
  tags : List String
  now : Nat

/-- Fold a sequence of registrations from the empty state. -/
def applyRegs (regs : List RegInput) : ContentAddressing :=
  regs.foldl (fun st r => (registerContent st r.data r.contentType r.nodeId r.tags r.now).1)
    ContentAddressing.new

end Store

namespace Zhtp

/-!
Embedding of `ZhtpNode::commit_destination` (`src/zhtp/mod.rs` lines
142–155).  A `SocketAddr` is an IP address (V4 or V6) plus a `u16` port.
-/

/-- An IP address: four octets, or the sixteen octets of a V6 address. -/
inductive IpAddr where
  | v4 (a b c d : Nat)
  | v6 (octets : List Nat)
deriving DecidableEq

/-- A socket address. -/
structure NodeAddress where
  ip : IpAddr
  port : Nat
deriving DecidableEq

/-- `addr.ip().octets()`. -/
def ipOctets : IpAddr → List Nat
  | .v4 a b c d => [a, b, c, d]
  | .v6 o => o

/-- `commit_destination`: a 32-byte value holding the big-endian port in its
first two bytes and at most the first six IP octets after them, the
remainder zero. -/
def commitDestination (addr : NodeAddress) : List Nat :=
  let portBytes := natToBeBytes 2 addr.port
  let ipBytes := ipOctets addr.ip
  let copyLen := min ipBytes.length 6
  portBytes ++ ipBytes.take copyLen ++ List.replicate (30 - copyLen) 0

end Zhtp

/-! ## Claim-specific definitions: tamper operations, update alphabets and
concrete instances used by the theorems below. -/

namespace ZK

open BN

/-- Replace one commitment (a single-wire tampering of the commitment list). -/
def tamperCommit (p : RoutingProof) (i : Nat) (g : G1) : RoutingProof :=
  { p with pathCommitments := p.pathCommitments.set i g }

/-- Replace one evaluation (a single-wire tampering of the element list). -/
def tamperElem (p : RoutingProof) (i : Nat) (v : Fr) : RoutingProof :=
  { p with proofElements := p.proofElements.set i v }

/-- Replace one public input (a single-wire tampering of the input list). -/
def tamperInput (p : RoutingProof) (i : Nat) (v : Fr) : RoutingProof :=
  { p with publicInputs := p.publicInputs.set i v }

/-- A concrete circuit with an empty path, no Merkle proof, no metrics, and a
non-zero data root. -/
def c1ex : UnifiedCircuit :=
  UnifiedCircuit.new [1] [2] [] [] (1 :: List.replicate 31 0) [] g1Gen 0 [] []

/-- A concrete circuit whose middle hop is absent from the routing table. -/
def c8bad : UnifiedCircuit :=
  UnifiedCircuit.new [1] [2] [[1], [9], [2]] [([1], [[3]])] (List.replicate 32 0)
    [] g1Gen 0 [] []

/-- A concrete five-entry proof whose first two public inputs are the field
hashes of `[1]` and `[2]` and whose remaining entries are arbitrary. -/
def p0C2 : RoutingProof :=
  { pathCommitments := List.replicate 5 g1Zero
    proofElements := List.replicate 5 (0 : Fr)
    publicInputs := [hashToField [1], hashToField [2], 0, 0, 0] }

end ZK

namespace Net

/-- One metrics update, ranging over the three public update entry points. -/
inductive MetricsUpdate where
  | routing (latency : Rat) (packetSize : Nat)
  | failed
  | reputation (success : Bool)

/-- Apply one update. -/
def applyUpdate (m : NetworkMetrics) : MetricsUpdate → NetworkMetrics
  | .routing latency packetSize => m.updateRoutingMetrics latency packetSize
  | .failed => m.updateFailedRouting
  | .reputation success => m.updateReputation success

/-- The drop rate the claim states for `attempt_delivery`:
`base + (1 − r)² × base × 5`, capped at 0.95 (this is the shape of the
uncalled `NetworkCondition::calculate_drop_rate`). -/
def claimedDropRate (c : NetworkCondition) (r : Rat) : Rat :=
  min (c.packetLossRate * c.latencyMultiplier +
       (1 - r) ^ 2 * (c.packetLossRate * c.latencyMultiplier) * 5) (95 / 100 : Rat)

/-- A packet that has already consumed its ten hops. -/
def expiredPacket : Packet :=
  { source := "n1", destination := "n2", payload := "m", timestamp := 0,
    visitedNodes := ["n1"], size := 101, maxHops := 10, hopCount := 10 }

/-- A two-node network whose queue holds `expiredPacket`, with the pending
tracking entry `send_packet` would have created. -/
def netC5 : Network :=
  { nodes := [("n1", Node.new "n1" 1000), ("n2", Node.new "n2" 1000)]
    messageQueue := [expiredPacket]
    deliveryTracking := [(trackingId expiredPacket, false)]
    networkConditions := [] }

/-- A destination condition with exact dyadic rates: 25% loss, unit latency. -/
def condC6 : NetworkCondition :=
  { packetLossRate := 1 / 4, latencyMultiplier := 1, bandwidthCap := none }

/-- A network whose destination `"d"` has reputation 1/2 under `condC6`. -/
def netC6 : Network :=
  { nodes := [("s", Node.new "s" 1),
              ("d", { Node.new "d" 1 with
                        metrics := { NetworkMetrics.new 1 with reputationScore := 1 / 2 } })]
    messageQueue := []
    deliveryTracking := []
    networkConditions := [("d", condC6)] }

/-- A packet from `"s"` to `"d"`. -/
def packC6 : Packet := Packet.new "s" "d" "x" 0

end Net

namespace Chain

/-- A submission that fails the balance check (amount 1 against balance 0). -/
def txC4reject : Transaction :=
  { fromAddr := "a", toAddr := "b", amount := 1, timestamp := 0, signature := "",
    nonce := 0, data := [] }

/-- A submission that passes the balance check (amount 0). -/
def txC4accept : Transaction :=
  { fromAddr := "a", toAddr := "b", amount := 0, timestamp := 0, signature := "",
    nonce := 0, data := [] }

/-- Nonces of the pending transactions of one sender, in pool order. -/
def pendingNoncesFor (st : ChainState) (sender : String) : List Nat :=
  (st.pendingTransactions.filter (fun tx => tx.fromAddr == sender)).map
    Transaction.nonce

/-- Whether a submission consumes a nonce: it names the sender and passes the
non-empty endpoint check (the only gate before the counter advances). -/
def consumesNonce (tx : Transaction) (sender : String) : Bool :=
  tx.fromAddr == sender && !(tx.fromAddr == "" || tx.toAddr == "")

end Chain

namespace Store

/-- The size-index invariant maintained by `register_content`: index keys are
unique, every bucketed id resolves to metadata of exactly the bucket's byte
size, and every registered content appears in the bucket of its byte size. -/
def sizeInv (st : ContentAddressing) : Prop :=
  ((st.sizeIndex.map Prod.fst).Nodup) ∧
  (∀ s ids, (s, ids) ∈ st.sizeIndex → ∀ id ∈ ids,
     ∃ m, st.contentMap.lookup id = some m ∧ m.size = s) ∧
  (∀ id m, st.contentMap.lookup id = some m →
     ∃ ids, (m.size, ids) ∈ st.sizeIndex ∧ id ∈ ids)

/-- The state after registering a single 2048-byte (2 KB) content. -/
def stC7 : ContentAddressing :=
  (registerContent ContentAddressing.new (List.replicate 2048 0) "application/x"
    [1] [] 100).1

/-- The state after registering the one-byte content `[7]` from node `[1]`. -/
def stC9 : ContentAddressing :=
  (registerContent ContentAddressing.new [7] "text/plain" [1] [] 10).1

/-- The metadata `stC9` stores for `[7]`. -/
def metaC9 : ContentMetadata :=
  { id := ContentId.new [7], size := 1, contentType := "text/plain",
    locations := [[1]], lastVerified := 10, tags := [] }

end Store

/-! ## Theorems -/

/-- Inserting then looking up the same key yields the inserted value. -/
theorem lookup_insertA_self {α β : Type} [BEq α] [LawfulBEq α]
    (m : List (α × β)) (k : α) (v : β) : (insertA m k v).lookup k = some v := by
  induction m with
  | nil => simp [insertA, List.lookup]
  | cons e rest ih =>
    obtain ⟨k', v'⟩ := e
    by_cases h : (k' == k) = true
    · simp [insertA, h, List.lookup]
    · have h2 : (k == k') = false :=
        beq_eq_false_iff_ne.mpr (fun e => h (beq_of_eq e.symm))
      simp [insertA, h, List.lookup, h2, ih]

/-- Insertion does not affect other keys. -/
theorem lookup_insertA_ne {α β : Type} [BEq α] [LawfulBEq α]
    (m : List (α × β)) (k q : α) (v : β) (h : q ≠ k) :
    (insertA m k v).lookup q = m.lookup q := by
  induction m with
  | nil =>
    have h2 : (q == k) = false := beq_eq_false_iff_ne.mpr h
    simp [insertA, List.lookup, h2]
  | cons e rest ih =>
    obtain ⟨k', v'⟩ := e
    by_cases hk : (k' == k) = true
    · have h1 : (q == k) = false := beq_eq_false_iff_ne.mpr h
      have h2 : (q == k') = false := by rw [eq_of_beq hk]; exact h1
      simp [insertA, hk, List.lookup, h1, h2]
    · by_cases hq : (q == k') = true
      · simp [insertA, hk, List.lookup, hq]
      · have hq' : (q == k') = false := eq_false_of_ne_true hq
        simp [insertA, hk, List.lookup, hq', ih]

/-- `lookupD` after insertion at the queried key. -/
theorem lookupD_insertA_self {α β : Type} [BEq α] [LawfulBEq α]
    (m : List (α × β)) (k : α) (v d : β) : lookupD (insertA m k v) k d = v := by
  simp [lookupD, lookup_insertA_self]

/-- `lookupD` after insertion at a different key. -/
theorem lookupD_insertA_ne {α β : Type} [BEq α] [LawfulBEq α]
    (m : List (α × β)) (k q : α) (v : β) (d : β) (h : q ≠ k) :
    lookupD (insertA m k v) q d = lookupD m q d := by
  simp [lookupD, lookup_insertA_ne m k q v h]

/-- Lookup distributes over append. -/
theorem lookup_append {α β : Type} [BEq α] (l1 l2 : List (α × β)) (k : α) :
    (l1 ++ l2).lookup k = ((l1.lookup k).or (l2.lookup k)) := by
  induction l1 with
  | nil => simp [List.lookup]
  | cons e rest ih =>
    obtain ⟨k', v'⟩ := e
    by_cases h : (k == k') = true
    · simp [List.lookup, h]
    · have h' : (k == k') = false := eq_false_of_ne_true h
      simp [List.lookup, h', ih]

/-- A successful lookup is a membership. -/
theorem mem_of_lookup_eq_some {α β : Type} [BEq α] [LawfulBEq α]
    {m : List (α × β)} {k : α} {v : β} (h : m.lookup k = some v) : (k, v) ∈ m := by
  induction m with
  | nil => simp [List.lookup] at h
  | cons e rest ih =>
    obtain ⟨k', v'⟩ := e
    by_cases hk : (k == k') = true
    · simp only [List.lookup, hk] at h
      obtain rfl := eq_of_beq hk
      simp at h
      simp [h]
    · have hk' : (k == k') = false := eq_false_of_ne_true hk
      simp only [List.lookup, hk'] at h
      exact List.mem_cons_of_mem _ (ih h)

/-- With unique keys, membership determines lookup. -/
theorem lookup_eq_some_of_mem_nodup {α β : Type} [BEq α] [LawfulBEq α]
    {m : List (α × β)} (hnd : (m.map Prod.fst).Nodup) {k : α} {v : β}
    (h : (k, v) ∈ m) : m.lookup k = some v := by
  induction m with
  | nil => simp at h
  | cons e rest ih =>
    obtain ⟨k', v'⟩ := e
    simp only [List.map_cons, List.nodup_cons] at hnd
    rcases List.mem_cons.mp h with he | hrest
    · obtain ⟨rfl, rfl⟩ := Prod.mk.injEq .. ▸ he
      injection he with h1 h2
      simp [List.lookup]
    · have hk : k ≠ k' := by
        intro e
        subst e
        exact hnd.1 (List.mem_map.mpr ⟨(k, v), hrest, rfl⟩)
      have hk' : (k == k') = false := beq_eq_false_iff_ne.mpr hk
      simp only [List.lookup, hk']
      exact ih hnd.2 hrest

/-- `updateA` on an absent key appends the new entry. -/
theorem updateA_of_lookup_none {α β : Type} [BEq α] [LawfulBEq α]
    (m : List (α × β)) (k : α) (d : β) (f : β → β) (h : m.lookup k = none) :
    updateA m k d f = m ++ [(k, f d)] := by
  induction m with
  | nil => simp [updateA]
  | cons e rest ih =>
    obtain ⟨k', v'⟩ := e
    by_cases hk : (k == k') = true
    · simp [List.lookup, hk] at h
    · have hk' : (k == k') = false := eq_false_of_ne_true hk
      have hk2 : (k' == k) = false :=
        beq_eq_false_iff_ne.mpr (fun e => by simp [e] at hk')
      simp only [List.lookup, hk'] at h
      simp [updateA, hk2, ih h]

/-- Membership in `updateA` of a present key, given unique keys. -/
theorem mem_updateA_of_lookup_some {α β : Type} [BEq α] [LawfulBEq α]
    {m : List (α × β)} (hnd : (m.map Prod.fst).Nodup) {k : α} {v : β}
    (h : m.lookup k = some v) (d : β) (f : β → β) (p : α × β) :
    p ∈ updateA m k d f ↔ ((p ∈ m ∧ p.1 ≠ k) ∨ p = (k, f v)) := by
  induction m with
  | nil => simp [List.lookup] at h
  | cons e rest ih =>
    obtain ⟨k', v'⟩ := e
    simp only [List.map_cons, List.nodup_cons] at hnd
    by_cases hk : (k == k') = true
    · obtain rfl := eq_of_beq hk
      simp only [List.lookup, beq_self_eq_true] at h
      simp only [Option.some.injEq] at h
      subst h
      have hk2 : (k == k) = true := beq_self_eq_true k
      simp only [updateA, hk2, if_pos rfl]
      constructor
      · intro hp
        rcases List.mem_cons.mp hp with he | hrest
        · exact Or.inr he
        · refine Or.inl ⟨List.mem_cons_of_mem _ hrest, ?_⟩
          intro hpk
          exact hnd.1 (List.mem_map.mpr ⟨p, hrest, hpk⟩)
      · rintro (⟨hp, hne⟩ | rfl)
        · rcases List.mem_cons.mp hp with he | hrest
          · exact absurd (by rw [he]) hne
          · exact List.mem_cons_of_mem _ hrest
        · exact List.mem_cons_self _ _
    · have hk' : (k == k') = false := eq_false_of_ne_true hk
      have hk2 : (k' == k) = false :=
        beq_eq_false_iff_ne.mpr (fun e => by simp [e] at hk')
      simp only [List.lookup, hk'] at h
      simp only [updateA, hk2, Bool.false_eq_true, if_false]
      constructor
      · intro hp
        rcases List.mem_cons.mp hp with he | hrest
        · refine Or.inl ⟨by simp [he], ?_⟩
          rw [he]
          intro e
          exact (beq_eq_false_iff_ne.mp hk') e.symm
        · rcases (ih hnd.2 h).mp hrest with ⟨h1, h2⟩ | h3
          · exact Or.inl ⟨List.mem_cons_of_mem _ h1, h2⟩
          · exact Or.inr h3
      · rintro (⟨hp, hne⟩ | rfl)
        · rcases List.mem_cons.mp hp with he | hrest
          · rw [he]; exact List.mem_cons_self _ _
          · exact List.mem_cons_of_mem _ ((ih hnd.2 h).mpr (Or.inl ⟨hrest, hne⟩))
        · exact List.mem_cons_of_mem _ ((ih hnd.2 h).mpr (Or.inr rfl))

/-- `updateA` leaves the key list unchanged or appends the new key. -/
theorem updateA_map_fst {α β : Type} [BEq α] [LawfulBEq α]
    (m : List (α × β)) (k : α) (d : β) (f : β → β) :
    (updateA m k d f).map Prod.fst =
      if containsKey m k then m.map Prod.fst else m.map Prod.fst ++ [k] := by
  induction m with
  | nil => simp [updateA, containsKey, List.lookup]
  | cons e rest ih =>
    obtain ⟨k', v'⟩ := e
    by_cases hk : (k' == k) = true
    · obtain rfl := eq_of_beq hk
      simp [updateA, containsKey, List.lookup]
    · have hk' : (k' == k) = false := eq_false_of_ne_true hk
      have hk2 : (k == k') = false :=
        beq_eq_false_iff_ne.mpr (fun e => by simp [e] at hk')
      simp only [updateA, hk', Bool.false_eq_true, if_false, List.map_cons, ih,
        containsKey, List.lookup, hk2]
      by_cases hc : (rest.lookup k).isSome = true
      · simp [containsKey, hc]
      · simp only [containsKey] at *
        simp [hc]

/-- A lookup fails exactly when the key is absent. -/
theorem lookup_none_iff_not_mem_keys {α β : Type} [BEq α] [LawfulBEq α]
    (m : List (α × β)) (k : α) :
    m.lookup k = none ↔ k ∉ m.map Prod.fst := by
  induction m with
  | nil => simp [List.lookup]
  | cons e rest ih =>
    obtain ⟨k', v'⟩ := e
    by_cases hk : (k == k') = true
    · obtain rfl := eq_of_beq hk
      simp [List.lookup]
    · have hk' : (k == k') = false := eq_false_of_ne_true hk
      simp only [List.lookup, hk', List.map_cons, List.mem_cons]
      rw [ih]
      constructor
      · intro h hc
        rcases hc with hc | hc
        · exact absurd (beq_of_eq hc) (by simp [hk'])
        · exact h hc
      · intro h
        exact fun hc => h (Or.inr hc)

/-- Setting one index leaves other positions unchanged. -/
theorem getD_set_of_ne {α : Type} (l : List α) (i j : Nat) (v d : α) (h : i ≠ j) :
    (l.set i v).getD j d = l.getD j d := by
  simp [List.getD_eq_getElem?_getD, List.getElem?_set_ne h]

/-- Setting an in-range index is observed by `getD` there. -/
theorem getD_set_self {α : Type} (l : List α) (i : Nat) (v d : α) (h : i < l.length) :
    (l.set i v).getD i d = v := by
  simp [List.getD_eq_getElem?_getD, List.getElem?_set_self, h]

namespace Net

/-- `clamp01` lands in the unit interval. -/
theorem clamp01_mem (x : Rat) : 0 ≤ clamp01 x ∧ clamp01 x ≤ 1 := by
  unfold clamp01
  split_ifs <;> constructor <;> linarith

/-- Every metrics update ends in a clamped reputation. -/
theorem applyUpdate_rep_mem (m : NetworkMetrics) (up : MetricsUpdate) :
    0 ≤ (applyUpdate m up).reputationScore ∧ (applyUpdate m up).reputationScore ≤ 1 := by
  cases up <;>
    simp only [applyUpdate, NetworkMetrics.updateRoutingMetrics,
      NetworkMetrics.updateFailedRouting, NetworkMetrics.updateReputation] <;>
    exact clamp01_mem _

/-- Folding any update sequence from a clamped state stays clamped. -/
theorem rep_mem_foldl (l : List MetricsUpdate) (m : NetworkMetrics)
    (h0 : 0 ≤ m.reputationScore) (h1 : m.reputationScore ≤ 1) :
    0 ≤ (l.foldl applyUpdate m).reputationScore ∧
      (l.foldl applyUpdate m).reputationScore ≤ 1 := by
  induction l generalizing m with
  | nil => exact ⟨h0, h1⟩
  | cons a t ih =>
    exact ih _ (applyUpdate_rep_mem m a).1 (applyUpdate_rep_mem m a).2

/-- Claim C10: starting from `NetworkMetrics::new`, every sequence of
`update_routing_metrics`, `update_failed_routing` and `update_reputation`
calls, in any order and number, keeps `reputation_score` within [0, 1]. -/
theorem claimC10 (u : Rat) (updates : List MetricsUpdate) :
    0 ≤ (updates.foldl applyUpdate (NetworkMetrics.new u)).reputationScore ∧
      (updates.foldl applyUpdate (NetworkMetrics.new u)).reputationScore ≤ 1 :=
  rep_mem_foldl updates (NetworkMetrics.new u) (by norm_num [NetworkMetrics.new])
    (by norm_num [NetworkMetrics.new])

/-- The outcome of `attempt_delivery` is decided exactly by node presence and
the `final_drop_rate` formula `min (base + (1 − r)² × base) 0.95`. -/
theorem attemptDelivery_eq_true_iff (net : Network) (p : Packet) (u latDraw : Rat) :
    (attemptDelivery net p u latDraw).2 = true ↔
      (containsKey net.nodes p.destination = true ∧
       ¬ u < attemptDropRate
          (lookupD net.networkConditions p.destination NetworkCondition.default)
          (destReputation net p.destination)) := by
  by_cases hC : containsKey net.nodes p.destination = true
  · by_cases hR : u < attemptDropRate
        (lookupD net.networkConditions p.destination NetworkCondition.default)
        (destReputation net p.destination)
    · rw [attemptDelivery, if_pos (Or.inr hR)]
      simp [hR]
    · rw [attemptDelivery, if_neg]
      · obtain ⟨n, hn⟩ : ∃ n, net.nodes.lookup p.destination = some n :=
          Option.isSome_iff_exists.mp hC
        rw [hn]
        simp [hC, hR]
      · push_neg
        exact ⟨hC, not_lt.mp hR⟩
  · rw [attemptDelivery, if_pos (Or.inl hC)]
    simp [hC]

/-- Claim C5 (the code's actual behavior at the claimed failing input): when
`process_messages` pops a packet whose incremented hop count exceeds
`max_hops`, the packet is discarded and `handle_failed_delivery` runs — the
source node's `delivery_failures` is incremented, but the `delivery_tracking`
entry is set to `true` (the value `get_delivery_success_rate` counts as a
*success*), not the `false` outcome the claim describes. -/
theorem claimC5 :
    (processFrontExpired netC5).map (fun net =>
        (net.deliveryTracking.lookup (trackingId expiredPacket),
         (net.nodes.lookup "n1").map (fun n => n.metrics.deliveryFailures)))
      = some (some true, some 1) := by decide

/-- Claim C6 counterexample: with destination condition `condC6`
(loss 1/4, latency ×1) and destination reputation 1/2, the drop sample
`u = 2/5` lies strictly below the claimed drop probability
`base + (1 − r)² × base × 5` (capped), so under the claim the delivery must
be dropped — yet `attempt_delivery` delivers. -/
theorem claimC6_counterexample :
    (attemptDelivery netC6 packC6 (2 / 5) 10).2 = true ∧
    (2 / 5 : Rat) < claimedDropRate condC6 (destReputation netC6 "d") := by
  constructor
  · rw [attemptDelivery_eq_true_iff]
    refine ⟨by decide, ?_⟩
    have h1 : lookupD netC6.networkConditions packC6.destination
        NetworkCondition.default = condC6 := rfl
    have h2 : destReputation netC6 packC6.destination = 1 / 2 := rfl
    rw [h1, h2]
    norm_num [attemptDropRate, condC6]
  · have h2 : destReputation netC6 "d" = 1 / 2 := rfl
    rw [h2]
    norm_num [claimedDropRate, condC6]

/-- Claim C6, as amended: on a delivery attempt to the final destination, the
drop probability `attempt_delivery` uses is `base + (1 − r)² × base`, capped
at 0.95 — without the ×5 factor the claim states (that factor appears only in
the uncalled `NetworkCondition::calculate_drop_rate`): the attempt delivers
exactly when the destination exists and the drop sample is not below that
rate. -/
theorem claimC6_amended (net : Network) (p : Packet) (u latDraw : Rat) :
    (attemptDelivery net p u latDraw).2 = true ↔
      (containsKey net.nodes p.destination = true ∧
       ¬ u < attemptDropRate
          (lookupD net.networkConditions p.destination NetworkCondition.default)
          (destReputation net p.destination)) :=
  attemptDelivery_eq_true_iff net p u latDraw

end Net

namespace Chain

/-- One `add_transaction` call preserves the sender's pending-nonce order
invariant and advances the counter exactly on nonce-consuming submissions. -/
theorem addTransaction_step (st : ChainState) (tx : Transaction) (sender : String)
    (hpw : List.Pairwise (· < ·) (pendingNoncesFor st sender))
    (hbd : ∀ x ∈ pendingNoncesFor st sender, x < lookupD st.transactionNonces sender 0) :
    (List.Pairwise (· < ·) (pendingNoncesFor (addTransaction st tx).1 sender) ∧
     ∀ x ∈ pendingNoncesFor (addTransaction st tx).1 sender,
        x < lookupD (addTransaction st tx).1.transactionNonces sender 0) ∧
    lookupD (addTransaction st tx).1.transactionNonces sender 0 =
      lookupD st.transactionNonces sender 0 +
        (if consumesNonce tx sender then 1 else 0) := by
  unfold addTransaction
  by_cases hempty : tx.fromAddr = "" ∨ tx.toAddr = ""
  · have hfalse : consumesNonce tx sender = false := by
      unfold consumesNonce
      rcases hempty with h | h <;> simp [h]
    simp only [if_pos hempty, hfalse, Bool.false_eq_true, if_false, Nat.add_zero]
    exact ⟨⟨hpw, hbd⟩, trivial⟩
  · push_neg at hempty
    simp only [if_neg (not_or.mpr ⟨hempty.1, hempty.2⟩ : ¬(tx.fromAddr = "" ∨ tx.toAddr = ""))]
    by_cases hsend : tx.fromAddr = sender
    · subst hsend
      have hcons : consumesNonce tx tx.fromAddr = true := by
        unfold consumesNonce
        simp [hempty.1, hempty.2]
      have hctr : lookupD (insertA st.transactionNonces tx.fromAddr
          (lookupD st.transactionNonces tx.fromAddr 0 + 1)) tx.fromAddr 0 =
          lookupD st.transactionNonces tx.fromAddr 0 + 1 :=
        lookupD_insertA_self _ _ _ _
      by_cases hbal : tx.fromAddr ≠ "network" ∧ lookupD st.balances tx.fromAddr 0 < tx.amount
      · rw [if_pos hbal]
        refine ⟨⟨hpw, ?_⟩, ?_⟩
        · intro x hx
          have hlt := hbd x hx
          simp only [hctr]
          omega
        · simp [hcons, hctr]
      · rw [if_neg hbal]
        have hnew : pendingNoncesFor
            { st with
              transactionNonces := insertA st.transactionNonces tx.fromAddr
                (lookupD st.transactionNonces tx.fromAddr 0 + 1),
              pendingTransactions := st.pendingTransactions ++
                [{ tx with nonce := lookupD st.transactionNonces tx.fromAddr 0 }] } tx.fromAddr =
            pendingNoncesFor st tx.fromAddr ++ [lookupD st.transactionNonces tx.fromAddr 0] := by
          unfold pendingNoncesFor
          rw [List.filter_append, List.map_append]
          congr 1
          simp
        refine ⟨⟨?_, ?_⟩, ?_⟩
        · rw [hnew, List.pairwise_append]
          refine ⟨hpw, List.pairwise_singleton _ _, ?_⟩
          intro x hx y hy
          simp only [List.mem_singleton] at hy
          subst hy
          exact hbd x hx
        · rw [hnew]
          intro x hx
          rw [show lookupD ({ st with
              transactionNonces := insertA st.transactionNonces tx.fromAddr
                (lookupD st.transactionNonces tx.fromAddr 0 + 1),
              pendingTransactions := st.pendingTransactions ++
                [{ tx with nonce := lookupD st.transactionNonces tx.fromAddr 0 }] } :
              ChainState).transactionNonces tx.fromAddr 0 =
              lookupD st.transactionNonces tx.fromAddr 0 + 1 from hctr]
          rcases List.mem_append.mp hx with h | h
          · exact Nat.lt_succ_of_lt (hbd x h)
          · simp only [List.mem_singleton] at h
            subst h
            exact Nat.lt_succ_self _
        · simp [hcons, hctr]
    · have hcons : consumesNonce tx sender = false := by
        unfold consumesNonce
        simp [beq_eq_false_iff_ne.mpr hsend]
      have hctr : lookupD (insertA st.transactionNonces tx.fromAddr
          (lookupD st.transactionNonces tx.fromAddr 0 + 1)) sender 0 =
          lookupD st.transactionNonces sender 0 :=
        lookupD_insertA_ne _ _ _ _ _ (fun e => hsend e.symm)
      by_cases hbal : tx.fromAddr ≠ "network" ∧ lookupD st.balances tx.fromAddr 0 < tx.amount
      · rw [if_pos hbal]
        refine ⟨⟨hpw, ?_⟩, ?_⟩
        · intro x hx
          rw [show lookupD ({ st with
              transactionNonces := insertA st.transactionNonces tx.fromAddr
                (lookupD st.transactionNonces tx.fromAddr 0 + 1) } :
              ChainState).transactionNonces sender 0 =
              lookupD st.transactionNonces sender 0 from hctr]
          exact hbd x hx
        · simp [hcons, hctr]
      · rw [if_neg hbal]
        have hnew : pendingNoncesFor
            { st with
              transactionNonces := insertA st.transactionNonces tx.fromAddr
                (lookupD st.transactionNonces tx.fromAddr 0 + 1),
              pendingTransactions := st.pendingTransactions ++
                [{ tx with nonce := lookupD st.transactionNonces tx.fromAddr 0 }] } sender =
            pendingNoncesFor st sender := by
          unfold pendingNoncesFor
          rw [List.filter_append, List.map_append]
          simp [beq_eq_false_iff_ne.mpr hsend]
        refine ⟨⟨?_, ?_⟩, ?_⟩
        · rw [hnew]; exact hpw
        · rw [hnew]
          intro x hx
          rw [show lookupD ({ st with
              transactionNonces := insertA st.transactionNonces tx.fromAddr
                (lookupD st.transactionNonces tx.fromAddr 0 + 1),
              pendingTransactions := st.pendingTransactions ++
                [{ tx with nonce := lookupD st.transactionNonces tx.fromAddr 0 }] } :
              ChainState).transactionNonces sender 0 =
              lookupD st.transactionNonces sender 0 from hctr]
          exact hbd x hx
        · simp [hcons, hctr]

/-- Folded form of `addTransaction_step`. -/
theorem runTransactions_invariant (txs : List Transaction) (sender : String)
    (st : ChainState)
    (hpw : List.Pairwise (· < ·) (pendingNoncesFor st sender))
    (hbd : ∀ x ∈ pendingNoncesFor st sender, x < lookupD st.transactionNonces sender 0) :
    List.Pairwise (· < ·) (pendingNoncesFor (runTransactions st txs) sender) ∧
    lookupD (runTransactions st txs).transactionNonces sender 0 =
      lookupD st.transactionNonces sender 0 +
        (txs.filter (fun tx => consumesNonce tx sender)).length := by
  induction txs generalizing st with
  | nil => exact ⟨hpw, by simp [runTransactions]⟩
  | cons tx rest ih =>
    obtain ⟨⟨hpw', hbd'⟩, hctr⟩ := addTransaction_step st tx sender hpw hbd
    have hrun : runTransactions st (tx :: rest) = runTransactions (addTransaction st tx).1 rest := by
      simp [runTransactions]
    rw [hrun]
    obtain ⟨h1, h2⟩ := ih (addTransaction st tx).1 hpw' hbd'
    refine ⟨h1, ?_⟩
    rw [h2, hctr]
    by_cases hc : consumesNonce tx sender = true
    · simp [List.filter, hc]
      omega
    · have : consumesNonce tx sender = false := eq_false_of_ne_true hc
      simp [List.filter, this]

/-- Claim C4, as amended: over any submission sequence from a fresh chain
state, the accepted transactions of one sender carry strictly increasing
nonces in acceptance order, and the sender's counter equals the number of its
submissions that passed the non-empty check — so a balance-rejected
submission still consumes a nonce and leaves a gap. -/
theorem claimC4_amended (txs : List Transaction) (sender : String) :
    List.Pairwise (· < ·) (pendingNoncesFor (runTransactions ChainState.new txs) sender) ∧
    lookupD (runTransactions ChainState.new txs).transactionNonces sender 0 =
      (txs.filter (fun tx => consumesNonce tx sender)).length := by
  obtain ⟨h1, h2⟩ := runTransactions_invariant txs sender ChainState.new
    (by simp [pendingNoncesFor, ChainState.new])
    (by simp [pendingNoncesFor, ChainState.new])
  exact ⟨h1, by simpa [ChainState.new, lookupD, List.lookup] using h2⟩

/-- Claim C4 counterexample: from a fresh state, a balance-rejected
submission (amount 1 against balance 0) consumes nonce 0, so the first
accepted transaction from the same sender receives nonce 1, not 0. -/
theorem claimC4_counterexample :
    (addTransaction ChainState.new txC4reject).2 = false ∧
    (addTransaction (addTransaction ChainState.new txC4reject).1 txC4accept).2 = true ∧
    pendingNoncesFor
      (addTransaction (addTransaction ChainState.new txC4reject).1 txC4accept).1 "a" = [1] := by
  refine ⟨?_, ?_, ?_⟩ <;>
    norm_num [addTransaction, ChainState.new, txC4reject, txC4accept, lookupD,
      insertA, List.lookup, pendingNoncesFor,
      (by decide : ¬("a" = "" ∨ "b" = "")), (by decide : "a" ≠ "network")]

end Chain

namespace Zhtp

/-- Byte layout of `commit_destination` for an IPv4 address. -/
theorem commitDestination_v4 (a b c d p : Nat) (hp : p < 65536) :
    commitDestination ⟨.v4 a b c d, p⟩ =
      [p / 256, p % 256, a, b, c, d] ++ List.replicate 26 0 := by
  have hdiv : p / 256 % 256 = p / 256 := Nat.mod_eq_of_lt (by omega)
  simp [commitDestination, ipOctets, natToBeBytes, natToLeBytes,
    List.range_succ, hdiv]

/-- Byte layout of `commit_destination` for an IPv6 address: only the first
six octets are embedded. -/
theorem commitDestination_v6 (o : List Nat) (p : Nat) (hp : p < 65536) :
    commitDestination ⟨.v6 o, p⟩ =
      [p / 256, p % 256] ++ o.take (min o.length 6) ++
        List.replicate (30 - min o.length 6) 0 := by
  have hdiv : p / 256 % 256 = p / 256 := Nat.mod_eq_of_lt (by omega)
  simp [commitDestination, ipOctets, natToBeBytes, natToLeBytes,
    List.range_succ, hdiv]

/-- Claim C3 counterexample: two distinct IPv6 addresses that agree on the
port and the first six octets receive the same commitment (so the mapping is
not injective), and the seventh IP octet is not embedded at all (byte 8 of
the commitment is zero, not the claimed octet) — the code copies only
`min(ip_len, 6)` IP bytes, not up to 16. -/
theorem claimC3_counterexample :
    commitDestination ⟨.v6 [0,0,0,0,0,0,1,0,0,0,0,0,0,0,0,0], 1⟩ =
      commitDestination ⟨.v6 (List.replicate 16 0), 1⟩ ∧
    (⟨.v6 [0,0,0,0,0,0,1,0,0,0,0,0,0,0,0,0], 1⟩ : NodeAddress) ≠
      ⟨.v6 (List.replicate 16 0), 1⟩ ∧
    (commitDestination ⟨.v6 [0,0,0,0,0,0,1,0,0,0,0,0,0,0,0,0], 1⟩).getD 8 0 = 0 := by
  decide

/-- Claim C3, as amended: the commitment's first 2 bytes are the big-endian
port, the next up to **six** bytes are the leading IP octets (IPv6 addresses
are truncated to their first six octets), and the remainder is zero; the
mapping is injective on IPv4 addresses (with in-range ports) but not on all
of `NodeAddress`. -/
theorem claimC3_amended (a b c d a' b' c' d' p p' : Nat) (o : List Nat)
    (hp : p < 65536) (hp' : p' < 65536) :
    commitDestination ⟨.v4 a b c d, p⟩ =
      [p / 256, p % 256, a, b, c, d] ++ List.replicate 26 0 ∧
    commitDestination ⟨.v6 o, p⟩ =
      [p / 256, p % 256] ++ o.take (min o.length 6) ++
        List.replicate (30 - min o.length 6) 0 ∧
    (commitDestination ⟨.v4 a b c d, p⟩ = commitDestination ⟨.v4 a' b' c' d', p'⟩ →
      a = a' ∧ b = b' ∧ c = c' ∧ d = d' ∧ p = p') := by
  refine ⟨commitDestination_v4 a b c d p hp, commitDestination_v6 o p hp, ?_⟩
  intro h
  rw [commitDestination_v4 a b c d p hp, commitDestination_v4 a' b' c' d' p' hp'] at h
  simp only [List.cons_append, List.nil_append, List.cons.injEq] at h
  obtain ⟨h1, h2, h3, h4, h5, h6, -⟩ := h
  refine ⟨h3, h4, h5, h6, ?_⟩
  omega

/-- Witness for `claimC3_amended` at concrete addresses. -/
theorem claimC3_witness :
    (80 : Nat) < 65536 ∧ (443 : Nat) < 65536 ∧
    (commitDestination ⟨.v4 10 0 0 1, 80⟩ =
        [80 / 256, 80 % 256, 10, 0, 0, 1] ++ List.replicate 26 0 ∧
     commitDestination ⟨.v6 (List.replicate 16 7), 80⟩ =
        [80 / 256, 80 % 256] ++
          (List.replicate 16 7).take (min (List.replicate 16 7).length 6) ++
          List.replicate (30 - min (List.replicate 16 7).length 6) 0 ∧
     (commitDestination ⟨.v4 10 0 0 1, 80⟩ = commitDestination ⟨.v4 10 0 0 2, 443⟩ →
       10 = 10 ∧ 0 = 0 ∧ 0 = 0 ∧ 1 = 2 ∧ 80 = 443)) :=
  ⟨by decide, by decide,
    claimC3_amended 10 0 0 1 10 0 0 2 80 443 (List.replicate 16 7)
      (by decide) (by decide)⟩

end Zhtp

namespace ZK

open BN

/-- The path-validity loop fails when any consecutive pair is not an
allowed hop. -/
theorem pathPairsValid_false (table : List (List Nat × List (List Nat))) :
    ∀ (path : List (List Nat)) (i : Nat), i + 1 < path.length →
    nextHopAllowed table (path.getD i []) (path.getD (i + 1) []) = false →
    pathPairsValid table path = false
  | [], i, h1, _ => by simp at h1
  | [a], i, h1, _ => by simp at h1
  | a :: b :: rest, 0, _, h2 => by
    simp only [List.getD_cons_zero, List.getD_cons_succ] at h2
    simp [pathPairsValid, h2]
  | a :: b :: rest, i + 1, h1, h2 => by
    have hr := pathPairsValid_false table (b :: rest) i
      (by simpa using h1) (by simpa using h2)
    simp [pathPairsValid, hr]

/-- Claim C8: `generate_proof` returns no proof whenever some consecutive
path pair is absent from the routing table. -/
theorem claimC8 (c : UnifiedCircuit) (i : Nat)
    (h1 : i + 1 < c.routePath.length)
    (h2 : nextHopAllowed c.routingTable (c.routePath.getD i [])
            (c.routePath.getD (i + 1) []) = false) :
    generateProof c = none := by
  unfold generateProof
  rw [pathPairsValid_false c.routingTable c.routePath i h1 h2]
  rfl

/-- Witness for `claimC8` on the concrete circuit `c8bad`. -/
theorem claimC8_witness :
    (0 + 1 < c8bad.routePath.length) ∧
    (nextHopAllowed c8bad.routingTable (c8bad.routePath.getD 0 [])
       (c8bad.routePath.getD 1 []) = false) ∧
    generateProof c8bad = none :=
  ⟨by decide, by decide, claimC8 c8bad 0 (by decide) (by decide)⟩


/-- The verifier's internal circuit always has `constraint_count = 1`:
its path is empty (0 routing wires) and its Merkle proof is empty (1 storage
wire). -/
theorem verifier_constraintCount (source destination root : List Nat) :
    (commitmentCounts (verifierCircuit source destination root)).2.1 = 1 := rfl

/-- When the three lists have equal length at least five and the first public
inputs agree with the recomputed hashes, `verify_unified_proof` accepts:
the routing block is unreachable because the verifier circuit's
`constraint_count` is 1. -/
theorem verify_true_of_base (p : RoutingProof) (source destination root : List Nat)
    (hl1 : p.pathCommitments.length = p.proofElements.length)
    (hl2 : p.pathCommitments.length = p.publicInputs.length)
    (hl5 : 5 ≤ p.publicInputs.length)
    (h0 : p.publicInputs.getD 0 0 = hashToField source)
    (h1 : p.publicInputs.getD 1 0 = hashToField destination)
    (h2 : root ≠ List.replicate 32 0 → p.publicInputs.getD 2 0 = hashToField root) :
    verifyUnifiedProof p source destination root = true := by
  have hstruct : validateProofStructure p = true := by
    simp [validateProofStructure, hl1, hl2, hl1 ▸ hl2, Nat.not_lt.mpr hl5]
  by_cases hroot : root = List.replicate 32 0
  · simp [verifyUnifiedProof, hstruct, h0, h1, hroot, verifier_constraintCount,
      -List.getD_eq_getElem?_getD, -List.reduceReplicate]
  · simp [verifyUnifiedProof, hstruct, h0, h1, h2 hroot, hroot, verifier_constraintCount,
      -List.getD_eq_getElem?_getD, -List.reduceReplicate]

/-- Claim C2: a proof whose three lists have equal length at least 5 and
whose leading public inputs equal the verifier's recomputed hashes of the
source, the destination, and (unless all-zero) the data root verifies
regardless of every other entry, and the verifier circuit's
`constraint_count` is 1, so the `constraint_count > 1` guard never runs the
path, adjacency, flag, batch-commitment, or elements-equal-inputs checks. -/
theorem claimC2 (p : RoutingProof) (source destination root : List Nat)
    (hl1 : p.pathCommitments.length = p.proofElements.length)
    (hl2 : p.pathCommitments.length = p.publicInputs.length)
    (hl5 : 5 ≤ p.publicInputs.length)
    (h0 : p.publicInputs.getD 0 0 = hashToField source)
    (h1 : p.publicInputs.getD 1 0 = hashToField destination)
    (h2 : root ≠ List.replicate 32 0 → p.publicInputs.getD 2 0 = hashToField root) :
    verifyUnifiedProof p source destination root = true ∧
    (commitmentCounts (verifierCircuit source destination root)).2.1 = 1 :=
  ⟨verify_true_of_base p source destination root hl1 hl2 hl5 h0 h1 h2,
   verifier_constraintCount source destination root⟩

/-- Witness for `claimC2` on the concrete proof `p0C2`. -/
theorem claimC2_witness :
    (p0C2.pathCommitments.length = p0C2.proofElements.length) ∧
    (p0C2.pathCommitments.length = p0C2.publicInputs.length) ∧
    (5 ≤ p0C2.publicInputs.length) ∧
    (p0C2.publicInputs.getD 0 0 = hashToField [1]) ∧
    (p0C2.publicInputs.getD 1 0 = hashToField [2]) ∧
    (verifyUnifiedProof p0C2 [1] [2] (List.replicate 32 0) = true ∧
     (commitmentCounts (verifierCircuit [1] [2] (List.replicate 32 0))).2.1 = 1) :=
  ⟨rfl, rfl, by decide, rfl, rfl,
   claimC2 p0C2 [1] [2] (List.replicate 32 0) rfl rfl (by decide) rfl rfl
     (fun h => absurd rfl h)⟩


/-- Complete characterization of `verify_unified_proof`: since the verifier
circuit's `constraint_count` is always 1, acceptance is decided entirely by
the structural check and the first three public inputs. -/
theorem verify_eq_true_iff (p : RoutingProof) (source destination root : List Nat) :
    verifyUnifiedProof p source destination root = true ↔
      (validateProofStructure p = true ∧
       p.publicInputs.getD 0 0 = hashToField source ∧
       p.publicInputs.getD 1 0 = hashToField destination ∧
       (root = List.replicate 32 0 ∨ p.publicInputs.getD 2 0 = hashToField root)) := by
  simp only [verifyUnifiedProof]
  by_cases hv : validateProofStructure p = true
  · rw [if_neg (not_not_intro hv)]
    by_cases h0 : p.publicInputs.getD 0 0 = hashToField source
    · rw [if_neg (not_not_intro h0)]
      by_cases h1 : p.publicInputs.getD 1 0 = hashToField destination
      · rw [if_neg (not_not_intro h1)]
        by_cases hroot : root = List.replicate 32 0
        · rw [if_neg (fun hc => hc.1 (by simp [hroot]))]
          rw [if_neg (fun hg => by
            have h11 := hg.2.2
            rw [verifier_constraintCount] at h11
            omega)]
          exact iff_of_true rfl ⟨hv, h0, h1, Or.inl hroot⟩
        · by_cases h2 : p.publicInputs.getD 2 0 = hashToField root
          · rw [if_neg (fun hc => hc.2 h2)]
            rw [if_neg (fun hg => by
              have h11 := hg.2.2
              rw [verifier_constraintCount] at h11
              omega)]
            exact iff_of_true rfl ⟨hv, h0, h1, Or.inr h2⟩
          · rw [if_pos ⟨fun hb => hroot (by simpa using hb), h2⟩]
            exact iff_of_false (by simp) (fun hc => hc.2.2.2.elim hroot h2)
      · rw [if_pos h1]
        exact iff_of_false (by simp) (fun hc => h1 hc.2.2.1)
    · rw [if_pos h0]
      exact iff_of_false (by simp) (fun hc => h0 hc.2.1)
  · rw [if_pos hv]
    exact iff_of_false (by simp) (fun hc => hv hc.1)


/-- A produced proof is exactly `buildProof` of the circuit. -/
theorem generateProof_inv {c : UnifiedCircuit} {p : RoutingProof}
    (hp : generateProof c = some p) : p = buildProof c := by
  unfold generateProof at hp
  by_cases hv : pathPairsValid c.routingTable c.routePath = true
  · rw [if_pos hv] at hp
    exact (Option.some.inj hp).symm
  · rw [if_neg hv] at hp
    exact absurd hp (by simp)

/-- Evaluating a zero-padded constant polynomial returns the constant. -/
theorem evaluatePolynomial_const_pad (v : Fr) (k : Nat) (x : Fr) :
    evaluatePolynomial (v :: List.replicate k 0) x = v := by
  have aux : ∀ (k : Nat) (a b : Fr),
      ((List.replicate k (0 : Fr)).foldl
        (fun acc c => (acc.1 + c * acc.2, acc.2 * x)) (a, b)).1 = a := by
    intro k
    induction k with
    | zero => intro a b; rfl
    | succ n ih =>
      intro a b
      simp only [List.replicate_succ, List.foldl_cons, zero_mul, add_zero]
      exact ih a (b * x)
  unfold evaluatePolynomial
  simp only [List.foldl_cons, zero_add, one_mul, zero_mul]
  have := aux k (0 + v * 1) (1 * x)
  simpa using this

/-- The public inputs of a built proof are the wire values. -/
theorem buildProof_publicInputs (c : UnifiedCircuit) :
    (buildProof c).publicInputs = wireValues c := rfl

/-- The challenge-point evaluations of a built proof are the wire values. -/
theorem buildProof_proofElements (c : UnifiedCircuit) :
    (buildProof c).proofElements = wireValues c := by
  show ((valuesToPolynomials c (wireValues c)).map
      (fun p => evaluatePolynomial p (2 : Fr))) = wireValues c
  unfold valuesToPolynomials
  rw [List.map_map]
  have : ∀ v ∈ wireValues c,
      (evaluatePolynomial ((fun v => v :: List.replicate (c.evaluationDomainSize - 1) (0:Fr)) v) (2 : Fr)) = v :=
    fun v _ => evaluatePolynomial_const_pad v _ _
  calc (wireValues c).map _ = (wireValues c).map id := List.map_congr_left this
  _ = wireValues c := List.map_id _

/-- One commitment per wire value. -/
theorem buildProof_pathCommitments_length (c : UnifiedCircuit) :
    (buildProof c).pathCommitments.length = (wireValues c).length := by
  show ((valuesToPolynomials c (wireValues c)).map commitPolynomial).length = _
  rw [List.length_map]
  unfold valuesToPolynomials
  rw [List.length_map]

/-- At least the five base wires are present. -/
theorem wireValues_length_ge (c : UnifiedCircuit) : 5 ≤ (wireValues c).length := by
  unfold wireValues baseValues
  simp [List.length_append]

/-- Wire 0 is the source hash. -/
theorem wireValues_getD_zero (c : UnifiedCircuit) :
    (wireValues c).getD 0 0 = hashToField c.sourceNode := rfl

/-- Wire 1 is the destination hash. -/
theorem wireValues_getD_one (c : UnifiedCircuit) :
    (wireValues c).getD 1 0 = hashToField c.destinationNode := rfl

/-- Wire 2 is the data-root hash. -/
theorem wireValues_getD_two (c : UnifiedCircuit) :
    (wireValues c).getD 2 0 = hashToField c.storedDataRoot := rfl


/-- Claim C1, as amended (see `claimC1_counterexample`): for every generated
proof, verification with the original source, destination, and data root
detects a single-wire modification exactly when it hits one of the first
three public inputs (first two in view-change mode); every modification of a
commitment, an evaluation, or a public input beyond index 2 passes
verification. -/
theorem claimC1_amended (c : UnifiedCircuit) (p : RoutingProof)
    (hp : generateProof c = some p) (i : Nat) (v : Fr) (g : G1) :
    (verifyUnifiedProof (tamperCommit p i g)
        c.sourceNode c.destinationNode c.storedDataRoot = true) ∧
    (verifyUnifiedProof (tamperElem p i v)
        c.sourceNode c.destinationNode c.storedDataRoot = true) ∧
    (3 ≤ i → verifyUnifiedProof (tamperInput p i v)
        c.sourceNode c.destinationNode c.storedDataRoot = true) ∧
    (i = 0 → v ≠ hashToField c.sourceNode →
      verifyUnifiedProof (tamperInput p i v)
        c.sourceNode c.destinationNode c.storedDataRoot = false) ∧
    (i = 1 → v ≠ hashToField c.destinationNode →
      verifyUnifiedProof (tamperInput p i v)
        c.sourceNode c.destinationNode c.storedDataRoot = false) ∧
    (i = 2 → v ≠ hashToField c.storedDataRoot →
      c.storedDataRoot ≠ List.replicate 32 0 →
      verifyUnifiedProof (tamperInput p i v)
        c.sourceNode c.destinationNode c.storedDataRoot = false) ∧
    (i = 2 → c.storedDataRoot = List.replicate 32 0 →
      verifyUnifiedProof (tamperInput p i v)
        c.sourceNode c.destinationNode c.storedDataRoot = true) := by
  obtain rfl := generateProof_inv hp
  have hlen : (buildProof c).publicInputs.length = (wireValues c).length := rfl
  have hlen5 : 5 ≤ (buildProof c).publicInputs.length := wireValues_length_ge c
  have hel : (buildProof c).proofElements.length = (wireValues c).length := by
    rw [buildProof_proofElements]
  have hcl : (buildProof c).pathCommitments.length = (wireValues c).length :=
    buildProof_pathCommitments_length c
  refine ⟨?_, ?_, ?_, ?_, ?_, ?_, ?_⟩
  · -- tampered commitment
    refine verify_true_of_base _ _ _ _ ?_ ?_ ?_ ?_ ?_ ?_
    · simp [tamperCommit, List.length_set, hcl, hel]
    · simp [tamperCommit, List.length_set, hcl, hlen]
    · simpa [tamperCommit] using hlen5
    · exact wireValues_getD_zero c
    · exact wireValues_getD_one c
    · exact fun _ => wireValues_getD_two c
  · -- tampered evaluation
    refine verify_true_of_base _ _ _ _ ?_ ?_ ?_ ?_ ?_ ?_
    · simp [tamperElem, List.length_set, hcl, hel]
    · simp [tamperElem, List.length_set, hcl, hlen]
    · simpa [tamperElem] using hlen5
    · exact wireValues_getD_zero c
    · exact wireValues_getD_one c
    · exact fun _ => wireValues_getD_two c
  · -- tampered public input beyond the base hashes
    intro h3
    refine verify_true_of_base _ _ _ _ ?_ ?_ ?_ ?_ ?_ ?_
    · simp [tamperInput, List.length_set, hcl, hel]
    · simp [tamperInput, List.length_set, hcl, hlen]
    · simpa [tamperInput, List.length_set] using hlen5
    · rw [show (tamperInput (buildProof c) i v).publicInputs =
          (buildProof c).publicInputs.set i v from rfl,
        getD_set_of_ne _ _ _ _ _ (by omega)]
      exact wireValues_getD_zero c
    · rw [show (tamperInput (buildProof c) i v).publicInputs =
          (buildProof c).publicInputs.set i v from rfl,
        getD_set_of_ne _ _ _ _ _ (by omega)]
      exact wireValues_getD_one c
    · intro _
      rw [show (tamperInput (buildProof c) i v).publicInputs =
          (buildProof c).publicInputs.set i v from rfl,
        getD_set_of_ne _ _ _ _ _ (by omega)]
      exact wireValues_getD_two c
  · -- tampered source hash
    rintro rfl hv
    rw [Bool.eq_false_iff]
    intro htrue
    obtain ⟨-, hh0, -, -⟩ := (verify_eq_true_iff _ _ _ _).mp htrue
    rw [show (tamperInput (buildProof c) 0 v).publicInputs =
        (buildProof c).publicInputs.set 0 v from rfl,
      getD_set_self _ _ _ _ (by omega)] at hh0
    exact hv hh0
  · -- tampered destination hash
    rintro rfl hv
    rw [Bool.eq_false_iff]
    intro htrue
    obtain ⟨-, -, hh1, -⟩ := (verify_eq_true_iff _ _ _ _).mp htrue
    rw [show (tamperInput (buildProof c) 1 v).publicInputs =
        (buildProof c).publicInputs.set 1 v from rfl,
      getD_set_self _ _ _ _ (by omega)] at hh1
    exact hv hh1
  · -- tampered root hash outside view-change mode
    rintro rfl hv hroot
    rw [Bool.eq_false_iff]
    intro htrue
    obtain ⟨-, -, -, hr⟩ := (verify_eq_true_iff _ _ _ _).mp htrue
    rcases hr with hr | hh2
    · exact hroot hr
    · rw [show (tamperInput (buildProof c) 2 v).publicInputs =
          (buildProof c).publicInputs.set 2 v from rfl,
        getD_set_self _ _ _ _ (by omega)] at hh2
      exact hv hh2
  · -- tampered root hash in view-change mode
    rintro rfl hroot
    refine verify_true_of_base _ _ _ _ ?_ ?_ ?_ ?_ ?_ ?_
    · simp [tamperInput, List.length_set, hcl, hel]
    · simp [tamperInput, List.length_set, hcl, hlen]
    · simpa [tamperInput, List.length_set] using hlen5
    · rw [show (tamperInput (buildProof c) 2 v).publicInputs =
          (buildProof c).publicInputs.set 2 v from rfl,
        getD_set_of_ne _ _ _ _ _ (by omega)]
      exact wireValues_getD_zero c
    · rw [show (tamperInput (buildProof c) 2 v).publicInputs =
          (buildProof c).publicInputs.set 2 v from rfl,
        getD_set_of_ne _ _ _ _ _ (by omega)]
      exact wireValues_getD_one c
    · intro hne
      exact absurd hroot hne


/-- Claim C1 counterexample: `c1ex` generates a proof; modifying its fourth
evaluation (the bandwidth wire, value 0) to 7 is a genuine single-wire
tampering, yet verification with the original source, destination and data
root still accepts. -/
theorem claimC1_counterexample :
    generateProof c1ex = some (buildProof c1ex) ∧
    (buildProof c1ex).proofElements.getD 3 0 = (0 : Fr) ∧
    (tamperElem (buildProof c1ex) 3 (7 : Fr)).proofElements.getD 3 0 = (7 : Fr) ∧
    (7 : Fr) ≠ (0 : Fr) ∧
    verifyUnifiedProof (tamperElem (buildProof c1ex) 3 (7 : Fr)) [1] [2]
      (1 :: List.replicate 31 0) = true := by
  have hells : (buildProof c1ex).proofElements = wireValues c1ex :=
    buildProof_proofElements c1ex
  have hlen6 : (buildProof c1ex).proofElements.length = 6 := by
    rw [hells]
    rfl
  refine ⟨rfl, ?_, ?_, ?_, ?_⟩
  · rw [hells]
    exact (show (wireValues c1ex).getD 3 0 = ((0 : Nat) : Fr) from rfl).trans
      Nat.cast_zero
  · exact getD_set_self _ _ _ _ (by omega)
  · decide
  · refine verify_true_of_base _ _ _ _ ?_ ?_ ?_ ?_ ?_ ?_
    · simp [tamperElem, List.length_set, buildProof_pathCommitments_length, hlen6]
      rfl
    · simp [tamperElem, List.length_set, buildProof_pathCommitments_length]
      rfl
    · exact wireValues_length_ge c1ex
    · exact wireValues_getD_zero c1ex
    · exact wireValues_getD_one c1ex
    · exact fun _ => wireValues_getD_two c1ex

/-- Witness for `claimC1_amended` on `c1ex`, tampering index 3 with value 7. -/
theorem claimC1_witness :
    generateProof c1ex = some (buildProof c1ex) ∧
    ((verifyUnifiedProof (tamperCommit (buildProof c1ex) 3 g1Zero)
        c1ex.sourceNode c1ex.destinationNode c1ex.storedDataRoot = true) ∧
     (verifyUnifiedProof (tamperElem (buildProof c1ex) 3 (7 : Fr))
        c1ex.sourceNode c1ex.destinationNode c1ex.storedDataRoot = true) ∧
     (3 ≤ 3 → verifyUnifiedProof (tamperInput (buildProof c1ex) 3 (7 : Fr))
        c1ex.sourceNode c1ex.destinationNode c1ex.storedDataRoot = true) ∧
     (3 = 0 → (7 : Fr) ≠ hashToField c1ex.sourceNode →
       verifyUnifiedProof (tamperInput (buildProof c1ex) 3 (7 : Fr))
        c1ex.sourceNode c1ex.destinationNode c1ex.storedDataRoot = false) ∧
     (3 = 1 → (7 : Fr) ≠ hashToField c1ex.destinationNode →
       verifyUnifiedProof (tamperInput (buildProof c1ex) 3 (7 : Fr))
        c1ex.sourceNode c1ex.destinationNode c1ex.storedDataRoot = false) ∧
     (3 = 2 → (7 : Fr) ≠ hashToField c1ex.storedDataRoot →
       c1ex.storedDataRoot ≠ List.replicate 32 0 →
       verifyUnifiedProof (tamperInput (buildProof c1ex) 3 (7 : Fr))
        c1ex.sourceNode c1ex.destinationNode c1ex.storedDataRoot = false) ∧
     (3 = 2 → c1ex.storedDataRoot = List.replicate 32 0 →
       verifyUnifiedProof (tamperInput (buildProof c1ex) 3 (7 : Fr))
        c1ex.sourceNode c1ex.destinationNode c1ex.storedDataRoot = true)) :=
  ⟨rfl, claimC1_amended c1ex (buildProof c1ex) rfl 3 (7 : Fr) g1Zero⟩

end ZK

namespace Store

/-- The empty state satisfies the size-index invariant. -/
theorem sizeInv_new : sizeInv ContentAddressing.new := by
  refine ⟨by simp [ContentAddressing.new], ?_, ?_⟩
  · intro s ids h
    simp [ContentAddressing.new] at h
  · intro id m h
    simp [ContentAddressing.new, List.lookup] at h

/-- `register_content` preserves the size-index invariant. -/
theorem registerContent_sizeInv (st : ContentAddressing) (data : List Nat)
    (ct : String) (nid : List Nat) (tags : List String) (now : Nat)
    (hinv : sizeInv st) :
    sizeInv (registerContent st data ct nid tags now).1 := by
  obtain ⟨h0, h1, h2⟩ := hinv
  rcases hlk : st.contentMap.lookup (ContentId.new data) with _ | meta
  · -- fresh id: the registry gains (cid, meta) and the bucket gains cid
    simp only [registerContent, hlk]
    have hlknew : ∀ id m', (st.contentMap ++
        [(ContentId.new data,
          ({ id := ContentId.new data, size := data.length, contentType := ct,
             locations := [nid], lastVerified := now, tags := tags } :
            ContentMetadata))]).lookup id = some m' ↔
        (st.contentMap.lookup id = some m' ∨
         (st.contentMap.lookup id = none ∧ id = ContentId.new data ∧
          m' = { id := ContentId.new data, size := data.length, contentType := ct,
                 locations := [nid], lastVerified := now, tags := tags })) := by
      intro id m'
      rw [lookup_append]
      rcases hedge : st.contentMap.lookup id with _ | mv
      · simp only [Option.none_or]
        by_cases he : id = ContentId.new data
        · subst he
          simp [List.lookup, eq_comm]
        · have hb : (id == ContentId.new data) = false := beq_eq_false_iff_ne.mpr he
          simp [List.lookup, hb, he]
      · simp [Option.or]
    rcases hsz : st.sizeIndex.lookup data.length with _ | ids0
    · -- fresh size bucket
      rw [updateA_of_lookup_none _ _ _ _ hsz]
      refine ⟨?_, ?_, ?_⟩
      · simp only [List.map_append, List.map_cons, List.map_nil]
        rw [List.nodup_append]
        refine ⟨h0, List.nodup_singleton _, ?_⟩
        intro s hs hs2
        simp only [List.mem_singleton] at hs2
        subst hs2
        exact (lookup_none_iff_not_mem_keys _ _).mp hsz hs
      · intro s ids hmem id hid
        rcases List.mem_append.mp hmem with hold | hnewb
        · obtain ⟨m, hm, hms⟩ := h1 s ids hold id hid
          refine ⟨m, (hlknew id m).mpr (Or.inl hm), hms⟩
        · simp only [List.mem_cons, List.not_mem_nil, or_false] at hnewb
          injection hnewb with hs1 hs2
          subst hs1
          subst hs2
          simp only [List.nil_append, List.mem_singleton] at hid
          subst hid
          exact ⟨_, (hlknew _ _).mpr (Or.inr ⟨hlk, rfl, rfl⟩), rfl⟩
      · intro id m hm
        rcases (hlknew id m).mp hm with hold | ⟨hnone, hide, hme⟩
        · obtain ⟨ids, hids, hin⟩ := h2 id m hold
          exact ⟨ids, List.mem_append_left _ hids, hin⟩
        · subst hide
          subst hme
          exact ⟨[ContentId.new data], by simp, by simp⟩
    · -- existing size bucket: membership via `mem_updateA_of_lookup_some`
      have hupd := mem_updateA_of_lookup_some h0 hsz ([] : List ContentId)
        (fun ids => ids ++ [ContentId.new data])
      refine ⟨?_, ?_, ?_⟩
      · rw [updateA_map_fst]
        have : containsKey st.sizeIndex data.length = true := by
          simp [containsKey, hsz]
        simp [this, h0]
      · intro s ids hmem id hid
        rcases (hupd (s, ids)).mp hmem with ⟨hold, hne⟩ | hb
        · obtain ⟨m, hm, hms⟩ := h1 s ids hold id hid
          refine ⟨m, (hlknew id m).mpr (Or.inl hm), hms⟩
        · injection hb with hs1 hs2
          subst hs1
          subst hs2
          rcases List.mem_append.mp hid with hid0 | hidc
          · obtain ⟨m, hm, hms⟩ := h1 _ ids0 (mem_of_lookup_eq_some hsz) id hid0
            refine ⟨m, (hlknew id m).mpr (Or.inl hm), hms⟩
          · simp only [List.mem_singleton] at hidc
            subst hidc
            exact ⟨_, (hlknew _ _).mpr (Or.inr ⟨hlk, rfl, rfl⟩), rfl⟩
      · intro id m hm
        rcases (hlknew id m).mp hm with hold | ⟨hnone, hide, hme⟩
        · obtain ⟨ids, hids, hin⟩ := h2 id m hold
          by_cases hms : m.size = data.length
          · have hii : ids = ids0 := by
              have h' := lookup_eq_some_of_mem_nodup h0 (hms ▸ hids)
              rw [hsz] at h'
              injection h' with h''
              exact h''.symm
            refine ⟨ids0 ++ [ContentId.new data], ?_, List.mem_append_left _ (hii ▸ hin)⟩
            rw [hms]
            exact (hupd _).mpr (Or.inr rfl)
          · exact ⟨ids, (hupd _).mpr (Or.inl ⟨hids, hms⟩), hin⟩
        · subst hide
          subst hme
          refine ⟨ids0 ++ [ContentId.new data], (hupd _).mpr (Or.inr rfl), by simp⟩
  · -- existing id: registry entry replaced with equal size, index untouched
    simp only [registerContent, hlk]
    refine ⟨h0, ?_, ?_⟩
    · intro s ids hmem id hid
      obtain ⟨m, hm, hms⟩ := h1 s ids hmem id hid
      by_cases he : id = ContentId.new data
      · subst he
        rw [hlk] at hm
        injection hm with hm
        subst hm
        refine ⟨_, lookup_insertA_self _ _ _, ?_⟩
        simpa using hms
      · exact ⟨m, by rw [lookup_insertA_ne _ _ _ _ he]; exact hm, hms⟩
    · intro id m hm
      by_cases he : id = ContentId.new data
      · subst he
        rw [lookup_insertA_self] at hm
        injection hm with hm
        subst hm
        obtain ⟨ids, hids, hin⟩ := h2 _ meta hlk
        exact ⟨ids, by simpa using hids, hin⟩
      · rw [lookup_insertA_ne _ _ _ _ he] at hm
        exact h2 id m hm

/-- Under the invariant, `search_content_by_size` returns exactly the
registered contents whose **byte** size lies in the requested range. -/
theorem search_mem_iff (st : ContentAddressing) (hinv : sizeInv st)
    (minKb maxKb : Nat) (id : ContentId) (m : ContentMetadata) :
    ((id, m) ∈ searchContentBySize st minKb maxKb) ↔
      (st.contentMap.lookup id = some m ∧ minKb ≤ m.size ∧ m.size ≤ maxKb) := by
  obtain ⟨h0, h1, h2⟩ := hinv
  unfold searchContentBySize
  rw [List.mem_flatMap]
  constructor
  · rintro ⟨⟨s, ids⟩, hbucket, hmem⟩
    rw [List.mem_filter] at hbucket
    obtain ⟨hmem0, hrange⟩ := hbucket
    rw [List.mem_filterMap] at hmem
    obtain ⟨id', hid', hmap⟩ := hmem
    rcases hl : st.contentMap.lookup id' with _ | mm
    · rw [hl] at hmap
      simp at hmap
    · rw [hl] at hmap
      simp only [Option.map_some'] at hmap
      have hpair : id' = id ∧ mm = m := by
        injection hmap with hp
        exact ⟨congrArg Prod.fst hp, congrArg Prod.snd hp⟩
      obtain ⟨rfl, rfl⟩ := hpair
      obtain ⟨m2, hm2, hsize⟩ := h1 s ids hmem0 id' hid'
      rw [hl] at hm2
      injection hm2 with hm2
      subst hm2
      simp only [decide_eq_true_eq] at hrange
      exact ⟨hl, hsize ▸ hrange.1, hsize ▸ hrange.2⟩
  · rintro ⟨hl, hmin, hmax⟩
    obtain ⟨ids, hids, hin⟩ := h2 id m hl
    refine ⟨(m.size, ids), ?_, ?_⟩
    · rw [List.mem_filter]
      exact ⟨hids, by simp [hmin, hmax]⟩
    · rw [List.mem_filterMap]
      refine ⟨id, hin, ?_⟩
      rw [hl]
      rfl

/-- Claim C7, as amended: the size index buckets content by its size in
**bytes**, and `search_content_by_size(min_kb, max_kb)` returns exactly the
registered contents whose size in bytes lies in `[min_kb, max_kb]` — the
bucket key is never converted to kilobytes. -/
theorem claimC7_amended (regs : List RegInput) (minKb maxKb : Nat)
    (id : ContentId) (m : ContentMetadata) :
    ((id, m) ∈ searchContentBySize (applyRegs regs) minKb maxKb) ↔
      ((applyRegs regs).contentMap.lookup id = some m ∧
       minKb ≤ m.size ∧ m.size ≤ maxKb) := by
  have hinv : sizeInv (applyRegs regs) := by
    have key : ∀ st, sizeInv st →
        sizeInv (regs.foldl
          (fun st r => (registerContent st r.data r.contentType r.nodeId r.tags r.now).1)
          st) := by
      induction regs with
      | nil => exact fun st h => h
      | cons r rest ih =>
        exact fun st h => ih _ (registerContent_sizeInv _ _ _ _ _ _ h)
    exact key _ sizeInv_new
  exact search_mem_iff _ hinv minKb maxKb id m

/-- Claim C9: re-registering existing bytes only extends the metadata's
locations with the new node id (deduplicated, preserving nodup) and
refreshes `last_verified` to the later timestamp; the metadata's size, type
and tags, all indices, the access counts, and every other registry entry are
unchanged. -/
theorem claimC9 (st : ContentAddressing) (data : List Nat) (contentType : String)
    (nodeId : List Nat) (tags : List String) (now : Nat) (meta : ContentMetadata)
    (h : st.contentMap.lookup (ContentId.new data) = some meta)
    (hts : meta.lastVerified ≤ now) :
    (registerContent st data contentType nodeId tags now).1.contentMap.lookup
        (ContentId.new data) =
      some { meta with
        locations := if meta.locations.contains nodeId then meta.locations
                     else meta.locations ++ [nodeId]
        lastVerified := max meta.lastVerified now } ∧
    (meta.locations.Nodup →
      (if meta.locations.contains nodeId then meta.locations
       else meta.locations ++ [nodeId]).Nodup) ∧
    (registerContent st data contentType nodeId tags now).1.typeIndex = st.typeIndex ∧
    (registerContent st data contentType nodeId tags now).1.sizeIndex = st.sizeIndex ∧
    (registerContent st data contentType nodeId tags now).1.tagIndex = st.tagIndex ∧
    (registerContent st data contentType nodeId tags now).1.accessCounts = st.accessCounts ∧
    ∀ id, id ≠ ContentId.new data →
      (registerContent st data contentType nodeId tags now).1.contentMap.lookup id =
        st.contentMap.lookup id := by
  simp only [registerContent, h]
  rw [Nat.max_eq_right hts]
  refine ⟨lookup_insertA_self _ _ _, ?_, trivial, trivial, trivial, trivial, ?_⟩
  · intro hn
    by_cases hm : nodeId ∈ meta.locations
    · simp [hm, hn]
    · have hc' : meta.locations.contains nodeId = false := by simpa using hm
      simp only [hc', Bool.false_eq_true, if_false]
      rw [List.nodup_append]
      exact ⟨hn, List.nodup_singleton _,
        fun a ha hb => hm ((List.mem_singleton.mp hb) ▸ ha)⟩
  · intro id hid
    exact lookup_insertA_ne _ _ _ _ hid

/-- Witness for `claimC9` on a concrete one-entry registry. -/
theorem claimC9_witness :
    stC9.contentMap.lookup (ContentId.new [7]) = some metaC9 ∧
    metaC9.lastVerified ≤ 20 ∧
    ((registerContent stC9 [7] "text/plain" [2] [] 20).1.contentMap.lookup
        (ContentId.new [7]) =
      some { metaC9 with
        locations := if metaC9.locations.contains [2] then metaC9.locations
                     else metaC9.locations ++ [[2]]
        lastVerified := max metaC9.lastVerified 20 } ∧
    (metaC9.locations.Nodup →
      (if metaC9.locations.contains [2] then metaC9.locations
       else metaC9.locations ++ [[2]]).Nodup) ∧
    (registerContent stC9 [7] "text/plain" [2] [] 20).1.typeIndex = stC9.typeIndex ∧
    (registerContent stC9 [7] "text/plain" [2] [] 20).1.sizeIndex = stC9.sizeIndex ∧
    (registerContent stC9 [7] "text/plain" [2] [] 20).1.tagIndex = stC9.tagIndex ∧
    (registerContent stC9 [7] "text/plain" [2] [] 20).1.accessCounts = stC9.accessCounts ∧
    ∀ id, id ≠ ContentId.new [7] →
      (registerContent stC9 [7] "text/plain" [2] [] 20).1.contentMap.lookup id =
        stC9.contentMap.lookup id) :=
  ⟨by simp [stC9, registerContent, ContentAddressing.new, List.lookup, metaC9],
   by decide,
   claimC9 stC9 [7] "text/plain" [2] [] 20 metaC9
     (by simp [stC9, registerContent, ContentAddressing.new, List.lookup, metaC9])
     (by decide)⟩

/-- Claim C7 counterexample: a registered 2048-byte (2 KB) content is not
returned by `search_content_by_size(1, 3)` although its size in KB (2) lies
in [1, 3]: the filter compares the byte-size key 2048 against the KB
bounds. -/
theorem claimC7_counterexample :
    searchContentBySize stC7 1 3 = [] ∧
    stC7.contentMap.map (fun e => e.2.size) = [2048] := by
  have key : ∀ data : List Nat, data.length = 2048 →
      searchContentBySize
        ((registerContent ContentAddressing.new data "application/x" [1] [] 100).1)
        1 3 = [] ∧
      ((registerContent ContentAddressing.new data "application/x" [1] [] 100).1
        |>.contentMap.map (fun e => e.2.size)) = [2048] := by
    intro data hlen
    constructor
    · simp [searchContentBySize, registerContent, ContentAddressing.new,
        List.lookup, updateA, hlen]
    · simp [registerContent, ContentAddressing.new, List.lookup, hlen]
  simpa only [stC7] using key (List.replicate 2048 0) (List.length_replicate _ _)

end Store

end Spec